import Mathlib

/-
Shallow embedding of the toysqleval repository (Go): lexer string scanning,
recursive-descent parser, and tree-walking SQL evaluator, together with
theorems settling the frozen claims about the natural-language specification.

Modelling conventions:
  - Go int64 values are Int with explicit wrapping (wrap64) at the arithmetic
    sites where Go overflow can occur; comparisons do not overflow.
  - Go float64 values are modelled as exact rationals; the claims under
    study only exercise orderings and small arithmetic where rounding is
    irrelevant.
  - Go panics are modelled as an explicit fault channel: EFault.errVal for a
    panic whose payload implements the Go error interface (fmt.Errorf,
    eval.Error, runtime errors) and EFault.strVal for a panic with a plain
    string payload.  Recover boundaries convert faults to ordinary results.
  - Source positions, which the Go code threads for diagnostics only, are
    dropped; error messages are abbreviated forms of the Go format strings.
  - Behaviour delegated to the Go standard library that no claim depends on
    (float formatting, time parsing and formatting) is abstracted into an
    ExternModel record quantified over in every general theorem.
-/

set_option maxHeartbeats 1000000

namespace SqlEval

/-- Token kinds, from token/kind.go.  Names that collide with Lean keywords
carry a Kw suffix. -/
inductive Kind where
  | invalid
  | andKw
  | boolean
  | comma
  | concat
  | create
  | delete
  | div
  | dot
  | equal
  | falseKw
  | fromKw
  | greaterThan
  | greaterThanOrEqualTo
  | ident
  | insert
  | integer
  | into
  | leftParen
  | lessThan
  | lessThanOrEqualTo
  | minus
  | mul
  | notKw
  | notEqual
  | nullKw
  | number
  | numberLiteral
  | orKw
  | plus
  | rightParen
  | select
  | semicolon
  | set
  | stringLiteral
  | table
  | timestamp
  | trueKw
  | update
  | valuesKw
  | varchar
  | whereKw
  deriving DecidableEq, Repr

/-- Binary operator precedence, from Kind.Precedence in token/kind.go. -/
def Kind.precedence : Kind → Nat
  | .orKw => 1
  | .andKw => 2
  | .equal | .notEqual | .lessThan | .lessThanOrEqualTo
  | .greaterThan | .greaterThanOrEqualTo => 3
  | .plus | .minus | .concat => 4
  | .mul | .div => 5
  | _ => 0

/-- A lexical token: kind plus literal text (positions dropped). -/
structure Token where
  kind : Kind
  lit : String
  deriving DecidableEq, Repr

/-- Column data types, from the eval package DataType enumeration.
invalidDataType is the Go zero value InvalidDataType. -/
inductive DataType where
  | invalidDataType
  | boolean
  | integer
  | number
  | stringType
  | timestamp
  deriving DecidableEq, Repr

/-- A fault raised by Go panic: errVal when the payload implements error,
strVal when it is a plain string. -/
inductive EFault where
  | errVal (msg : String)
  | strVal (msg : String)
  deriving DecidableEq, Repr

/-- Runtime SQL value variants (eval package Value).  The Go interface value
nil, SQL null, is represented by Option.none at the Val level, never by a
variant. -/
inductive Value where
  | boolean (b : Bool)
  | integer (n : Int)
  | number (q : Rat)
  | stringV (s : String)
  | timestamp (t : Int)
  deriving DecidableEq, Repr

/-- Decidable equality for Except results, used to evaluate the embedding
on concrete inputs. -/
instance {ε α : Type} [DecidableEq ε] [DecidableEq α] : DecidableEq (Except ε α) := fun x y =>
  match x, y with
  | .ok a, .ok b =>
      if h : a = b then .isTrue (by rw [h])
      else .isFalse (fun hh => h (Except.ok.inj hh))
  | .error a, .error b =>
      if h : a = b then .isTrue (by rw [h])
      else .isFalse (fun hh => h (Except.error.inj hh))
  | .ok _, .error _ => .isFalse (fun hh => Except.noConfusion hh)
  | .error _, .ok _ => .isFalse (fun hh => Except.noConfusion hh)

/-- Reduction of pure in the Except monad. -/
theorem ex_pure {ε α : Type} (a : α) : (pure a : Except ε α) = .ok a := rfl

/-- Reduction of bind on an ok value in the Except monad. -/
theorem ex_bind_ok {ε α β : Type} (a : α) (f : α → Except ε β) :
    (Except.ok a : Except ε α) >>= f = f a := rfl

/-- Reduction of bind on an error in the Except monad. -/
theorem ex_bind_err {ε α β : Type} (e : ε) (f : α → Except ε β) :
    (Except.error e : Except ε α) >>= f = .error e := rfl

/-- A possibly-null SQL value: Go Value interface including nil. -/
abbrev Val := Option Value

/-- A table row (eval/db.go Row). -/
abbrev Row := List Val

/-- External standard-library behaviour no claim depends on: float64
formatting (fmt with the v verb), time.Parse over the timeLayouts list, and
RFC-3339 time formatting.  Every general theorem quantifies over this
record. -/
structure ExternModel where
  numFormat : Rat → String
  timeParse : String → Option Int
  timeFormat : Int → String

/-- Arbitrary instantiation of ExternModel used in concrete witnesses and
counterexamples, all of which avoid float formatting and timestamps. -/
def emStd : ExternModel :=
  ⟨fun _ => "", fun _ => none, fun _ => ""⟩

/-- Largest int64 value, math.MaxInt64. -/
def int64Max : Int := 2 ^ 63 - 1

/-- Smallest int64 value, math.MinInt64. -/
def int64Min : Int := -(2 ^ 63)

/-- Wraps an integer into int64 range, modelling Go two-complement
overflow. -/
def wrap64 (n : Int) : Int := (n + 2 ^ 63) % 2 ^ 64 - 2 ^ 63

/-- Conversion of a Go int64 to float64, exact in the rational model;
written as an explicit structure literal so that concrete evaluation
reduces. -/
def ratOfInt (n : Int) : Rat := ⟨n, 1, Nat.one_ne_zero, Nat.coprime_one_right _⟩

/-- Folds a digit run into a number; fails at the first non-digit. -/
def parseDigitsAux : List Char → Nat → Option Nat
  | [], acc => some acc
  | c :: cs, acc =>
      if c.isDigit then parseDigitsAux cs (acc * 10 + (c.toNat - 48)) else none

/-- Parses a nonempty all-digit character list. -/
def parseDigits (cs : List Char) : Option Nat :=
  match cs with
  | [] => none
  | _ => parseDigitsAux cs 0

/-- Model of strconv.ParseInt base 10 before the bit-size range check:
optional sign then a nonempty digit run. -/
def goParseIntCore (s : String) : Option Int :=
  match s.toList with
  | [] => none
  | c :: rest =>
      if c = Char.ofNat 43 then (parseDigits rest).map Int.ofNat
      else if c = Char.ofNat 45 then (parseDigits rest).map (fun n => -(n : Int))
      else (parseDigits (c :: rest)).map Int.ofNat

/-- Model of strconv.ParseInt base 10 bit size 64 as used by
StringValue.toInteger, which treats any ParseInt error (syntax or range) as
a fault. -/
def goParseInt (s : String) : Option Int :=
  match goParseIntCore s with
  | none => none
  | some v => if int64Min ≤ v ∧ v ≤ int64Max then some v else none

/-- Model of strconv.ParseInt with the error ignored, as in
parser.parseNumberLiteral: a syntax error yields 0 and a range error yields
the clamped value. -/
def goParseIntLenient (s : String) : Int :=
  match goParseIntCore s with
  | none => 0
  | some v => if v < int64Min then int64Min else if int64Max < v then int64Max else v

/-- Splits a character list into its leading digit run and the remainder. -/
def spanDigits : List Char → List Char × List Char
  | [] => ([], [])
  | c :: cs =>
      if c.isDigit then
        let (ds, rest) := spanDigits cs
        (c :: ds, rest)
      else ([], c :: cs)

/-- Value of an all-digit character list. -/
def digitsVal (cs : List Char) : Nat := (parseDigitsAux cs 0).getD 0

/-- Model of strconv.ParseFloat restricted to plain decimal forms (optional
sign, digits with optional fraction, optional decimal exponent); float64
rounding is abstracted to exact rationals.  Special forms (inf, nan, hex
floats) that no claim exercises are omitted. -/
def goParseFloat (s : String) : Option Rat :=
  match s.toList with
  | [] => none
  | cs0 =>
    let (sgn, cs1) : Rat × List Char :=
      match cs0 with
      | c :: rest =>
          if c = Char.ofNat 45 then (-1, rest)
          else if c = Char.ofNat 43 then (1, rest)
          else (1, cs0)
      | [] => (1, [])
    let (ip, cs2) := spanDigits cs1
    let mantissa : Option (Rat × List Char) :=
      match cs2 with
      | c :: cs3 =>
          if c = Char.ofNat 46 then
            let (fp, cs4) := spanDigits cs3
            if ip = [] ∧ fp = [] then none
            else some (((digitsVal ip : Rat) + (digitsVal fp : Rat) / ((10 : Rat) ^ fp.length)), cs4)
          else if ip = [] then none
          else some ((digitsVal ip : Rat), cs2)
      | [] => if ip = [] then none else some ((digitsVal ip : Rat), [])
    match mantissa with
    | none => none
    | some (m, rest) =>
      match rest with
      | [] => some (sgn * m)
      | e :: cs5 =>
          if e = Char.ofNat 101 ∨ e = Char.ofNat 69 then
            let (esgn, cs6) : Bool × List Char :=
              match cs5 with
              | c :: cs7 =>
                  if c = Char.ofNat 45 then (true, cs7)
                  else if c = Char.ofNat 43 then (false, cs7)
                  else (false, cs5)
              | [] => (false, [])
            match cs6 with
            | [] => none
            | _ =>
              match parseDigits cs6 with
              | none => none
              | some ex =>
                  if (spanDigits cs6).snd = [] then
                    some (sgn * m * (if esgn then ((10 : Rat) ^ ex)⁻¹ else (10 : Rat) ^ ex))
                  else none
          else none

/-- Model of strconv.ParseFloat with the error ignored, as in
parser.parseNumberLiteral: an error yields 0. -/
def goParseFloatLenient (s : String) : Rat := (goParseFloat s).getD 0

/-- Truncation of a rational toward zero, modelling the Go conversion
int64(float64). -/
def truncRat (q : Rat) : Int := if 0 ≤ q then q.floor else q.ceil

/-- Go integer division truncates toward zero. -/
def goIntDiv (x y : Int) : Int := Int.tdiv x y

/-- Cast operator toBoolean of the Value interface.  Non-boolean variants
panic with a plain string. -/
def Value.toBoolean : Value → Except EFault Bool
  | .boolean b => .ok b
  | .integer _ => .error (.strVal ("cannot convert Integer to Boolean"))
  | .number _ => .error (.strVal ("cannot convert Number to Boolean"))
  | .stringV _ => .error (.strVal ("cannot convert String to Boolean"))
  | .timestamp _ => .error (.strVal ("cannot convert Timestamp to Boolean"))

/-- String rendering of an IntegerValue (fmt with the d verb). -/
def intString (n : Int) : String := toString n

/-- Cast operator toString of the Value interface: BooleanValue panics, the
numeric and timestamp variants render via their String methods. -/
def Value.toStringV (em : ExternModel) : Value → Except EFault String
  | .boolean _ => .error (.strVal ("cannot convert Boolean to String"))
  | .integer n => .ok (intString n)
  | .number q => .ok (em.numFormat q)
  | .stringV s => .ok s
  | .timestamp t => .ok (em.timeFormat t)

/-- Cast operator toInteger of the Value interface.  A string is parsed by
strconv.ParseInt and the parse error becomes an error-typed fault; a number
is truncated toward zero (the Go conversion int64(float64), with the
out-of-range case abstracted as plain truncation). -/
def Value.toInteger : Value → Except EFault Int
  | .boolean _ => .error (.strVal ("cannot convert Boolean to Integer"))
  | .integer n => .ok n
  | .number q => .ok (truncRat q)
  | .stringV s =>
      match goParseInt s with
      | some n => .ok n
      | none => .error (.errVal ("strconv.ParseInt: parsing failed"))
  | .timestamp _ => .error (.strVal ("cannot convert Timestamp to Integer"))

/-- Cast operator toNumber of the Value interface.  A string is parsed by
strconv.ParseFloat and the parse error becomes an error-typed fault. -/
def Value.toNumber : Value → Except EFault Rat
  | .boolean _ => .error (.strVal ("cannot convert Boolean to Number"))
  | .integer n => .ok (ratOfInt n)
  | .number q => .ok q
  | .stringV s =>
      match goParseFloat s with
      | some q => .ok q
      | none => .error (.errVal ("strconv.ParseFloat: parsing failed"))
  | .timestamp _ => .error (.strVal ("cannot convert Timestamp to Number"))

/-- Cast operator toTimestamp of the Value interface.  A string is tried
against the timeLayouts list via time.Parse (abstracted by the
ExternModel); failure panics with a plain string. -/
def Value.toTimestamp (em : ExternModel) : Value → Except EFault Int
  | .boolean _ => .error (.strVal ("cannot convert Boolean to Timestamp"))
  | .integer _ => .error (.strVal ("cannot convert Integer to Timestamp"))
  | .number _ => .error (.strVal ("cannot convert Number to Timestamp"))
  | .stringV s =>
      match em.timeParse s with
      | some t => .ok t
      | none => .error (.strVal ("invalid timestamp"))
  | .timestamp t => .ok t

/-- The nil-pointer fault raised when a cast method is invoked on a null
value: in Go this is a runtime error, which implements the error
interface. -/
def nilDeref : EFault :=
  .errVal ("runtime error: invalid memory address or nil pointer dereference")

/-- Boolean coercion at the Val level: the Go callers invoke toBoolean
directly on a possibly-nil interface value, so null faults with a nil
dereference. -/
def valToBoolean : Val → Except EFault Bool
  | none => .error nilDeref
  | some v => v.toBoolean

/-- The coerce function of the eval package: dispatch on the target data
type to the cast operators.  Wherever the cast yields a bare scalar the Go
code rewraps it in the corresponding variant. -/
def coerce (em : ExternModel) (v : Value) : DataType → Except EFault Value
  | .boolean => do let b ← v.toBoolean; .ok (.boolean b)
  | .integer => do let n ← v.toInteger; .ok (.integer n)
  | .number => do let q ← v.toNumber; .ok (.number q)
  | .stringType => do let s ← v.toStringV em; .ok (.stringV s)
  | .timestamp => do let t ← v.toTimestamp em; .ok (.timestamp t)
  | .invalidDataType => .error (.errVal ("invalid data type"))

/-- Integer comparison dispatch cmpInts. -/
def cmpInts (op : Kind) (a b : Int) : Except EFault Bool :=
  match op with
  | .equal => .ok (a = b)
  | .notEqual => .ok (a ≠ b)
  | .lessThan => .ok (a < b)
  | .lessThanOrEqualTo => .ok (a ≤ b)
  | .greaterThan => .ok (b < a)
  | .greaterThanOrEqualTo => .ok (b ≤ a)
  | _ => .error (.errVal ("invalid comparison operator"))

/-- Floating comparison dispatch cmpFloats. -/
def cmpFloats (op : Kind) (a b : Rat) : Except EFault Bool :=
  match op with
  | .equal => .ok (a = b)
  | .notEqual => .ok (a ≠ b)
  | .lessThan => .ok (a < b)
  | .lessThanOrEqualTo => .ok (a ≤ b)
  | .greaterThan => .ok (b < a)
  | .greaterThanOrEqualTo => .ok (b ≤ a)
  | _ => .error (.errVal ("invalid comparison operator"))

/-- String comparison dispatch cmpStrings (byte-lexicographic in Go,
codepoint-lexicographic here; identical on the ASCII data all claims
use). -/
def cmpStrings (op : Kind) (a b : String) : Except EFault Bool :=
  match op with
  | .equal => .ok (a = b)
  | .notEqual => .ok (a ≠ b)
  | .lessThan => .ok (a < b)
  | .lessThanOrEqualTo => .ok (a < b ∨ a = b)
  | .greaterThan => .ok (b < a)
  | .greaterThanOrEqualTo => .ok (b < a ∨ a = b)
  | _ => .error (.errVal ("invalid comparison operator"))

/-- Timestamp comparison dispatch cmpTimes over the abstract instant. -/
def cmpTimes (op : Kind) (a b : Int) : Except EFault Bool :=
  match op with
  | .equal => .ok (a = b)
  | .notEqual => .ok (a ≠ b)
  | .lessThan => .ok (a < b)
  | .lessThanOrEqualTo => .ok (a < b ∨ a = b)
  | .greaterThan => .ok (b < a)
  | .greaterThanOrEqualTo => .ok (b < a ∨ a = b)
  | _ => .error (.errVal ("invalid comparison operator"))

/-- The comparisonOp double dispatch of the eval package, including the
String-lhs branches exactly as written in the source: there the local
variable val is computed from rhs (val := rhs.toInteger() resp.
rhs.toNumber(), identities on the already-numeric rhs), so the string on
the left is never parsed and the comparison degenerates to rhs against
itself. -/
def comparisonOp (em : ExternModel) (op : Kind) (lhs rhs : Val) : Except EFault Bool :=
  match lhs, rhs with
  | none, _ => .ok false
  | _, none => .ok false
  | some l, some r =>
    match l, r with
    | .boolean a, .boolean b =>
        cmpInts op (if a then 1 else 0) (if b then 1 else 0)
    | .integer a, .integer b => cmpInts op a b
    | .integer a, .number b => cmpFloats op (ratOfInt a) b
    | .integer a, .stringV _ => do
        let v ← Value.toInteger r
        cmpInts op a v
    | .number a, .integer b => cmpFloats op a (ratOfInt b)
    | .number a, .number b => cmpFloats op a b
    | .number a, .stringV _ => do
        let v ← Value.toNumber r
        cmpFloats op a v
    | .stringV _, .integer b => do
        let v ← Value.toInteger (.integer b)
        cmpInts op v b
    | .stringV _, .number b => do
        let v ← Value.toNumber (.number b)
        cmpFloats op v b
    | .stringV a, .stringV b => cmpStrings op a b
    | .stringV _, .timestamp b => do
        let v ← Value.toTimestamp em l
        cmpTimes op v b
    | .timestamp a, .stringV _ => do
        let v ← Value.toTimestamp em r
        cmpTimes op a v
    | .timestamp a, .timestamp b => cmpTimes op a b
    | _, _ => .error (.errVal ("invalid comparison"))

/-- Integer arithmetic arithOpInt, with int64 wraparound and a fault on
division by zero. -/
def arithOpInt (op : Kind) (x y : Int) : Except EFault Value :=
  match op with
  | .plus => .ok (.integer (wrap64 (x + y)))
  | .minus => .ok (.integer (wrap64 (x - y)))
  | .mul => .ok (.integer (wrap64 (x * y)))
  | .div =>
      if y = 0 then .error (.errVal ("divide by zero"))
      else .ok (.integer (wrap64 (goIntDiv x y)))
  | _ => .ok (.integer 0)

/-- Floating arithmetic arithOpNum, with a fault on division by zero (an
explicit check in the source, ahead of the float division). -/
def arithOpNum (op : Kind) (x y : Rat) : Except EFault Value :=
  match op with
  | .plus => .ok (.number (x + y))
  | .minus => .ok (.number (x - y))
  | .mul => .ok (.number (x * y))
  | .div =>
      if y = 0 then .error (.errVal ("divide by zero"))
      else .ok (.number (x / y))
  | _ => .ok (.number 0)

/-- The arithmeticOp numeric tower: null on either side yields null;
Integer×Integer stays integral, a Number on either side promotes, a String
is parsed as integer or float depending on the other side. -/
def arithmeticOp (op : Kind) (lhs rhs : Val) : Except EFault Val :=
  match lhs, rhs with
  | none, _ => .ok none
  | _, none => .ok none
  | some l, some r =>
    match l, r with
    | .integer a, .integer b => do let v ← arithOpInt op a b; .ok (some v)
    | .integer a, .number b => do let v ← arithOpNum op (ratOfInt a) b; .ok (some v)
    | .integer a, .stringV _ => do
        let b ← Value.toInteger r
        let v ← arithOpInt op a b
        .ok (some v)
    | .number a, .integer b => do let v ← arithOpNum op a (ratOfInt b); .ok (some v)
    | .number a, .number b => do let v ← arithOpNum op a b; .ok (some v)
    | .number a, .stringV _ => do
        let b ← Value.toNumber r
        let v ← arithOpNum op a b
        .ok (some v)
    | .stringV _, .integer b => do
        let a ← Value.toInteger l
        let v ← arithOpInt op a b
        .ok (some v)
    | .stringV _, .number b => do
        let a ← Value.toNumber l
        let v ← arithOpNum op a b
        .ok (some v)
    | _, _ => .error (.errVal ("invalid arithmetic expression"))

/-- Unary plus and minus, unaryArithOp: null propagates, only numeric
variants are legal. -/
def unaryArithOp (op : Kind) (v : Val) : Except EFault Val :=
  match v with
  | none => .ok none
  | some w =>
    match op with
    | .plus =>
        match w with
        | .integer _ | .number _ => .ok (some w)
        | _ => .error (.errVal ("invalid value for unary op"))
    | .minus =>
        match w with
        | .integer n => .ok (some (.integer (wrap64 (-n))))
        | .number q => .ok (some (.number (-q)))
        | _ => .error (.errVal ("invalid value for unary op"))
    | _ => .error (.errVal ("invalid unary operator"))

/-- String concatenation concatOp: null on either side yields null, both
sides otherwise coerced to strings. -/
def concatOp (em : ExternModel) (lhs rhs : Val) : Except EFault Val :=
  match lhs, rhs with
  | none, _ => .ok none
  | _, none => .ok none
  | some l, some r => do
      let a ← l.toStringV em
      let b ← r.toStringV em
      .ok (some (.stringV (a ++ b)))

/-- Expression AST (positions dropped).  star is ast.SelectStarExpr; aggRef
is the stateful aggFunc node spliced into a projection by the aggregate
rewriter, here an index into the list of accumulator states. -/
inductive Expr where
  | ident (name : String)
  | intLit (n : Int)
  | numLit (q : Rat)
  | strLit (s : String)
  | boolLit (b : Bool)
  | nullLit
  | binary (lhs : Expr) (op : Kind) (rhs : Expr)
  | unary (op : Kind) (e : Expr)
  | call (name : String) (args : List Expr)
  | star
  | aggRef (i : Nat)

/-- Column definition node of a CREATE TABLE statement; the type is carried
as a token kind, exactly as ast.ColumnDefinition does. -/
structure ColumnDefinition where
  name : String
  type : Kind
  nullable : Bool
  deriving DecidableEq, Repr

/-- CREATE TABLE statement node. -/
structure CreateTableStmt where
  table : String
  columns : List ColumnDefinition
  deriving DecidableEq, Repr

/-- SELECT statement node; the table is a general expression that the
evaluator insists be an identifier. -/
structure SelectStmt where
  columns : List Expr
  table : Expr
  whereClause : Option Expr

/-- INSERT statement node. -/
structure InsertStmt where
  table : String
  columns : List String
  values : List Expr

/-- UPDATE statement node; columns and values are the positionally aligned
SET pairs. -/
structure UpdateStmt where
  table : String
  columns : List String
  values : List Expr
  whereClause : Option Expr

/-- DELETE statement node. -/
structure DeleteStmt where
  table : String
  whereClause : Option Expr

/-- Statement nodes, the closed set the evaluator dispatches on. -/
inductive Stmt where
  | createTable (s : CreateTableStmt)
  | selectStmt (s : SelectStmt)
  | insertStmt (s : InsertStmt)
  | updateStmt (s : UpdateStmt)
  | deleteStmt (s : DeleteStmt)

/-- Table column metadata (eval/db.go Column); Go zero values are none,
false and 0. -/
structure Column where
  name : String
  type : DataType
  dflt : Val
  nullable : Bool
  autoInc : Bool
  nextVal : Int
  deriving DecidableEq, Repr

/-- A table: name, ordered columns, ordered rows. -/
structure Table where
  name : String
  columns : List Column
  data : List Row
  deriving DecidableEq, Repr

/-- Index of the first column with the given name (Go returns -1 when
missing, modelled as none). -/
def Table.colIndex (t : Table) (name : String) : Option Nat :=
  t.columns.findIdx? (fun c => c.name = name)

/-- The evaluation environment: tables in creation order; the Go map with
unique names is modelled as an association list. -/
structure Environment where
  tables : List Table
  deriving DecidableEq, Repr

/-- Retrieves a table by name; a missing table panics with an error-typed
fault. -/
def Environment.lookupTable (env : Environment) (name : String) : Except EFault Table :=
  match env.tables.find? (fun t => t.name = name) with
  | some t => .ok t
  | none => .error (.errVal ("relation does not exist"))

/-- Replaces the table with the given name; models mutation through the
shared pointer held by the Go environment map. -/
def Environment.replaceTable (env : Environment) (name : String) (t : Table) : Environment :=
  ⟨env.tables.map (fun u => if u.name = name then t else u)⟩

/-- The namespace interface: the empty namespace or the current row of a
table. -/
inductive Namespace where
  | empty
  | curRow (t : Table) (row : Row)

/-- Identifier lookup through a namespace; unknown columns panic with an
error-typed fault (both namespace implementations). -/
def nsLookup : Namespace → String → Except EFault Val
  | .empty, _ => .error (.errVal ("column does not exist"))
  | .curRow t row, name =>
      match t.colIndex name with
      | some i =>
          match row.get? i with
          | some v => .ok v
          | none => .error (.errVal ("runtime error: index out of range"))
      | none => .error (.errVal ("column does not exist"))

/-- Names of the builtin aggregate functions (keys of builtinAggFuncs). -/
def builtinAggFuncNames : List String := ["count", "min", "max", "sum"]

/-- Reports whether a name refers to a builtin aggregate function. -/
def isAggFuncName (name : String) : Bool := builtinAggFuncNames.contains name

/-- State of an aggregate accumulator: countAggFunc, minMaxAggFunc and
sumAggFunc of eval/funcs.go, with their captured argument expression. -/
inductive AggState where
  | count (e : Expr) (isStar : Bool) (n : Int)
  | minMax (e : Expr) (fval : Rat) (ival : Int) (isFloat : Bool) (isMin : Bool)
  | sum (e : Expr) (fsum : Rat) (isum : Int) (isFloat : Bool)

/-- The setInt helper of minMaxAggFunc: keeps the smaller (min) or larger
(max) integer. -/
def setIntGo (isMin : Bool) (ival n : Int) : Int :=
  if isMin then (if n < ival then n else ival)
  else (if ival < n then n else ival)

/-- The setFloat helper of minMaxAggFunc, embedded exactly as written: the
comparisons are inverted relative to setInt (for min the source replaces
fval when fval is less than the candidate), so after float promotion the
accumulator tracks the wrong extremum. -/
def setFloatGo (isMin : Bool) (fval n : Rat) : Rat :=
  if isMin then (if fval < n then n else fval)
  else (if n < fval then n else fval)

/-- Finalize of an accumulator. -/
def aggFinalize : AggState → Val
  | .count _ _ n => some (.integer n)
  | .minMax _ fval ival isFloat _ =>
      if isFloat then some (.number fval) else some (.integer ival)
  | .sum _ fsum isum isFloat =>
      if isFloat then some (.number fsum) else some (.integer isum)

/-- Binary dispatch of evalBinaryExpr after both operands are evaluated:
the operator class selects logical (both sides coerced to boolean),
comparison, arithmetic or concatenation. -/
def evalBinaryOp (em : ExternModel) (op : Kind) (lhs rhs : Val) : Except EFault Val :=
  match op with
  | .andKw | .orKw => do
      let x ← valToBoolean lhs
      let y ← valToBoolean rhs
      .ok (some (.boolean (if op = Kind.andKw then x && y else x || y)))
  | .equal | .greaterThan | .greaterThanOrEqualTo
  | .lessThan | .lessThanOrEqualTo | .notEqual => do
      let b ← comparisonOp em op lhs rhs
      .ok (some (.boolean b))
  | .plus | .minus | .mul | .div => arithmeticOp op lhs rhs
  | .concat => concatOp em lhs rhs
  | _ => .error (.errVal ("invalid binary operator"))

/-- Unary dispatch of evalUnaryExpr after the operand is evaluated. -/
def evalUnaryOp (op : Kind) (v : Val) : Except EFault Val :=
  match op with
  | .plus | .minus => unaryArithOp op v
  | _ => .error (.errVal ("invalid unary operator"))

/-- The evalExpr tree walk.  aggs carries the accumulator states that
rewritten aggRef nodes reference (empty outside aggregate mode); a
FunctionCall that survives to evaluation is unimplemented and faults.
Binary and unary nodes evaluate their children left to right and then
dispatch (evalBinaryExpr and evalUnaryExpr in the source). -/
def evalExpr (em : ExternModel) (aggs : List AggState) (ns : Namespace) : Expr → Except EFault Val
  | .ident name => nsLookup ns name
  | .intLit n => .ok (some (.integer n))
  | .numLit q => .ok (some (.number q))
  | .strLit s => .ok (some (.stringV s))
  | .boolLit b => .ok (some (.boolean b))
  | .nullLit => .ok none
  | .binary l op r => do
      let lhs ← evalExpr em aggs ns l
      let rhs ← evalExpr em aggs ns r
      evalBinaryOp em op lhs rhs
  | .unary op e => do
      let v ← evalExpr em aggs ns e
      evalUnaryOp op v
  | .call _ _ => .error (.errVal ("non-aggregate functions are not implemented"))
  | .star => .error (.errVal ("cannot evaluate expression"))
  | .aggRef i =>
      match aggs.get? i with
      | some st => .ok (aggFinalize st)
      | none => .error (.strVal ("failed aggFunc lookup"))

/-- Accumulator step (the step methods of eval/funcs.go): evaluates the
captured argument against the row namespace and folds it in. COUNT with a
star argument short-circuits without evaluating. -/
def aggStep (em : ExternModel) (ns : Namespace) : AggState → Except EFault AggState
  | .count e isStar n =>
      if isStar then .ok (.count e isStar (n + 1))
      else do
        let v ← evalExpr em [] ns e
        .ok (.count e isStar (if v = none then n else n + 1))
  | .minMax e fval ival isFloat isMin => do
      let v ← evalExpr em [] ns e
      match v with
      | some (.integer k) =>
          if isFloat then .ok (.minMax e (setFloatGo isMin fval (ratOfInt k)) ival isFloat isMin)
          else .ok (.minMax e fval (setIntGo isMin ival k) isFloat isMin)
      | some (.number q) =>
          if isFloat then .ok (.minMax e (setFloatGo isMin fval q) ival isFloat isMin)
          else .ok (.minMax e (setFloatGo isMin (ratOfInt ival) q) ival true isMin)
      | none => .ok (.minMax e fval ival isFloat isMin)
      | some _ => .error (.errVal ("cannot compute MIN of value"))
  | .sum e fsum isum isFloat => do
      let v ← evalExpr em [] ns e
      match v with
      | some (.integer k) =>
          if isFloat then .ok (.sum e (fsum + ratOfInt k) isum isFloat)
          else .ok (.sum e fsum (wrap64 (isum + k)) isFloat)
      | some (.number q) =>
          if isFloat then .ok (.sum e (fsum + q) isum isFloat)
          else .ok (.sum e ((fsum + ratOfInt isum) + q) isum true)
      | none => .ok (.sum e fsum isum isFloat)
      | some _ => .error (.errVal ("cannot compute SUM of value"))

/-- Constructor newCountAggFunc: exactly one argument; a star argument sets
the isStar flag. -/
def newCountAggFunc (args : List Expr) : Except EFault AggState :=
  match args with
  | [a] => .ok (.count a (match a with | .star => true | _ => false) 0)
  | _ => .error (.errVal ("wrong number of arguments to COUNT"))

/-- Constructor newMinAggFunc: the integer accumulator starts at
math.MaxInt64. -/
def newMinAggFunc (args : List Expr) : Except EFault AggState :=
  match args with
  | [a] => .ok (.minMax a 0 int64Max false true)
  | _ => .error (.errVal ("wrong number of arguments to MIN"))

/-- Constructor newMaxAggFunc: the integer accumulator starts at
math.MinInt64. -/
def newMaxAggFunc (args : List Expr) : Except EFault AggState :=
  match args with
  | [a] => .ok (.minMax a 0 int64Min false false)
  | _ => .error (.errVal ("wrong number of arguments to MAX"))

/-- Constructor newSumAggFunc. -/
def newSumAggFunc (args : List Expr) : Except EFault AggState :=
  match args with
  | [a] => .ok (.sum a 0 0 false)
  | _ => .error (.errVal ("wrong number of arguments to SUM"))

mutual

/-- Recursive search for an aggregate function call (containsAggFunc,
implemented over ast.Walk). -/
def containsAggFunc : Expr → Bool
  | .binary l _ r => containsAggFunc l || containsAggFunc r
  | .unary _ e => containsAggFunc e
  | .call name args => isAggFuncName name || containsAggList args
  | _ => false

/-- Search over a list of child expressions. -/
def containsAggList : List Expr → Bool
  | [] => false
  | e :: es => containsAggFunc e || containsAggList es

end

mutual

/-- The validateAggExpr walk: an aggregate call must not contain a nested
aggregate in its arguments (the search is pruned below a valid aggregate
call); a bare identifier anywhere else is rejected as requiring GROUP BY.
A non-aggregate call falls through the type switch, so ast.Walk visits its
name identifier, which always raises the GROUP BY error. -/
def validateAggExpr : Expr → Except EFault Unit
  | .ident _ => .error (.errVal ("column must appear in the GROUP BY clause or be used in an aggregate function"))
  | .binary l _ r => do
      validateAggExpr l
      validateAggExpr r
  | .unary _ e => validateAggExpr e
  | .call name args =>
      if isAggFuncName name then
        if containsAggList args then
          .error (.errVal ("aggregate function calls cannot be nested"))
        else .ok ()
      else
        .error (.errVal ("column must appear in the GROUP BY clause or be used in an aggregate function"))
  | _ => .ok ()

/-- Validation over a list of child expressions (unused by the walk shape
above but kept for symmetry of the mutual block). -/
def validateAggList : List Expr → Except EFault Unit
  | [] => .ok ()
  | e :: es => do
      validateAggExpr e
      validateAggList es

end

/-- The aggFuncRewriter rewrite pass: binary and unary nodes are rebuilt
with rewritten children, a call to a builtin aggregate is replaced by a
fresh accumulator (appended to the collected list and referenced by
index), any other call is an unknown function, and all other nodes are
returned unchanged.  Argument expressions are captured raw, exactly as the
Go constructors do. -/
def rewriteAgg : Expr → List AggState → Except EFault (Expr × List AggState)
  | .binary l op r, funcs => do
      let (l', fs1) ← rewriteAgg l funcs
      let (r', fs2) ← rewriteAgg r fs1
      .ok (.binary l' op r', fs2)
  | .unary op e, funcs => do
      let (e', fs1) ← rewriteAgg e funcs
      .ok (.unary op e', fs1)
  | .call name args, funcs =>
      if name = "count" then do
        let st ← newCountAggFunc args
        .ok (.aggRef funcs.length, funcs ++ [st])
      else if name = "min" then do
        let st ← newMinAggFunc args
        .ok (.aggRef funcs.length, funcs ++ [st])
      else if name = "max" then do
        let st ← newMaxAggFunc args
        .ok (.aggRef funcs.length, funcs ++ [st])
      else if name = "sum" then do
        let st ← newSumAggFunc args
        .ok (.aggRef funcs.length, funcs ++ [st])
      else .error (.errVal ("unknown function"))
  | e, funcs => .ok (e, funcs)

/-- Maps a column-definition token kind to a DataType
(dataTypeFromToken); an unexpected kind panics with a plain string. -/
def dataTypeFromToken : Kind → Except EFault DataType
  | .boolean => .ok .boolean
  | .integer => .ok .integer
  | .number => .ok .number
  | .varchar => .ok .stringType
  | .timestamp => .ok .timestamp
  | _ => .error (.strVal ("internal error: token does not refer to a valid data type"))

/-- Reports a duplicate column name, mirroring the seen-set scan of
Environment.CreateTable. -/
def columnsHaveDup : List Column → Bool
  | [] => false
  | c :: cs => cs.any (fun d => d.name = c.name) || columnsHaveDup cs

/-- Registers a table: fails on a duplicate table name or a duplicate
column name (Environment.CreateTable). -/
def Environment.CreateTable (env : Environment) (t : Table) : Except EFault Environment :=
  if env.tables.any (fun u => u.name = t.name) then
    .error (.errVal ("relation already exists"))
  else if columnsHaveDup t.columns then
    .error (.errVal ("column specified more than once"))
  else .ok ⟨env.tables ++ [t]⟩

/-- Builds the column list of a CREATE TABLE statement; unspecified Column
fields take their Go zero values (no default, no auto-increment). -/
def buildColumns : List ColumnDefinition → Except EFault (List Column)
  | [] => .ok []
  | cd :: cds => do
      let dt ← dataTypeFromToken cd.type
      let rest ← buildColumns cds
      .ok (⟨cd.name, dt, none, cd.nullable, false, 0⟩ :: rest)

/-- Evaluates a CREATE TABLE statement; on fault the environment is
untouched. -/
def evalCreateTableStmt (env : Environment) (s : CreateTableStmt) : Environment × Option EFault :=
  match buildColumns s.columns with
  | .error f => (env, some f)
  | .ok cols =>
      match env.CreateTable ⟨s.table, cols, []⟩ with
      | .error f => (env, some f)
      | .ok env' => (env', none)

/-- Name-validity scan of Table.insert: every explicit target column must
exist, checked up front before any placement. -/
def checkNames (t : Table) : List String → Option EFault
  | [] => none
  | n :: rest =>
      match t.colIndex n with
      | some _ => checkNames t rest
      | none => some (.errVal ("column of relation does not exist"))

/-- Placement loop of Table.insert for an explicit column list: each cell
takes the value named for its column; an unspecified integer
auto-increment column takes and advances the next value (mutating the
column, returned updated), otherwise a configured default applies, and
otherwise the cell stays nil.  The j index is always within values by the
arity check, so the getD fallback never fires. -/
def placeNamed (names : List String) (values : List Val) : List Column → Row × List Column
  | [] => ([], [])
  | col :: cols =>
      let (cell, col') : Val × Column :=
        match names.findIdx? (fun n => n = col.name) with
        | some j => ((values.get? j).getD none, col)
        | none =>
            if col.type = DataType.integer ∧ col.autoInc then
              (some (.integer col.nextVal), { col with nextVal := col.nextVal + 1 })
            else if col.dflt ≠ none then (col.dflt, col)
            else (none, col)
      let (row, cols') := placeNamed names values cols
      (cell :: row, col' :: cols')

/-- One iteration of the final loop of Table.insert: a non-null cell is
coerced to its column data type, and a null cell in a non-nullable column
is a constraint violation. -/
def coerceCell (em : ExternModel) (col : Column) : Val → Except EFault Val
  | some w => do
      let u ← coerce em w col.type
      pure (some u)
  | none =>
      if col.nullable then pure (none : Val)
      else .error (.errVal ("null value in column violates not-null constraint"))

/-- The final loop of Table.insert over the whole row. -/
def coerceRow (em : ExternModel) : List Column → Row → Except EFault Row
  | [], _ => .ok []
  | _ :: _, [] => .ok []
  | col :: cols, v :: vs => do
      let v' ← coerceCell em col v
      let rest ← coerceRow em cols vs
      .ok (v' :: rest)

/-- Table.insert of eval/db.go.  The result pairs the table as left by the
call (auto-increment counters advance during placement even when a later
check fails; the row itself is appended only after every check and
coercion succeeded) with the fault, if any. -/
def Table.insert (em : ExternModel) (tab : Table) (names : List String) (values : List Val) :
    Table × Option EFault :=
  let numTargets := if names.length = 0 then tab.columns.length else names.length
  if numTargets ≠ values.length then
    (tab, some (.errVal ("INSERT has wrong number of expressions for the target columns")))
  else
    match names with
    | [] =>
        match coerceRow em tab.columns values with
        | .error f => (tab, some f)
        | .ok row' => ({ tab with data := tab.data ++ [row'] }, none)
    | _ =>
        match checkNames tab names with
        | some f => (tab, some f)
        | none =>
            let (row, cols') := placeNamed names values tab.columns
            let tab' := { tab with columns := cols' }
            match coerceRow em cols' row with
            | .error f => (tab', some f)
            | .ok row' => ({ tab' with data := tab'.data ++ [row'] }, none)

/-- Evaluates the WHERE predicate of a statement against one row: an
absent clause matches every row; a present clause must coerce to
boolean. -/
def whereTest (em : ExternModel) (t : Table) (row : Row) : Option Expr → Except EFault Bool
  | none => .ok true
  | some w => do
      let v ← evalExpr em [] (.curRow t row) w
      valToBoolean v

/-- Evaluates a list of expressions left to right in a namespace (the
projection loop of evalSelectStmt and the VALUES loop of
evalInsertStmt). -/
def evalProjRow (em : ExternModel) (aggs : List AggState) (ns : Namespace) :
    List Expr → Except EFault Row
  | [] => .ok []
  | e :: es => do
      let v ← evalExpr em aggs ns e
      let rest ← evalProjRow em aggs ns es
      .ok (v :: rest)

/-- Star expansion of evalSelectStmt: a star becomes the table columns as
identifiers, in schema order. -/
def expandStar (t : Table) : List Expr → List Expr
  | [] => []
  | e :: es =>
      match e with
      | .star => t.columns.map (fun c => Expr.ident c.name) ++ expandStar t es
      | _ => e :: expandStar t es

/-- Result-set metadata for a non-aggregate select: the identifier name for
a plain identifier projection, a placeholder otherwise; other Column
fields are Go zero values. -/
def resultColumns (proj : List Expr) : List Column :=
  proj.map (fun e =>
    ⟨(match e with | .ident n => n | _ => "?"), .invalidDataType, none, false, false, 0⟩)

/-- Result-set metadata for an aggregate select: always the placeholder. -/
def aggResultColumns (proj : List Expr) : List Column :=
  proj.map (fun _ => ⟨"?", .invalidDataType, none, false, false, 0⟩)

/-- Row loop of the non-aggregate select path: a row is included exactly
when the WHERE predicate evaluates to boolean true, and each included row
is projected. -/
def selectRows (em : ExternModel) (t : Table) (wq : Option Expr) (proj : List Expr) :
    List Row → Except EFault (List Row)
  | [] => .ok []
  | row :: rest => do
      let keep ← whereTest em t row wq
      if keep then do
        let res ← evalProjRow em [] (.curRow t row) proj
        let more ← selectRows em t wq proj rest
        .ok (res :: more)
      else selectRows em t wq proj rest

/-- The per-projection validate-then-rewrite loop of
evalAggregateSelectStmt, threading the collected accumulators. -/
def validateAndRewrite : List Expr → List AggState → Except EFault (List Expr × List AggState)
  | [], funcs => .ok ([], funcs)
  | e :: es, funcs => do
      validateAggExpr e
      let (e', fs1) ← rewriteAgg e funcs
      let (rest, fs2) ← validateAndRewrite es fs1
      .ok (e' :: rest, fs2)

/-- Steps every accumulator with the current row namespace. -/
def stepAll (em : ExternModel) (ns : Namespace) : List AggState → Except EFault (List AggState)
  | [] => .ok []
  | st :: sts => do
      let st' ← aggStep em ns st
      let rest ← stepAll em ns sts
      .ok (st' :: rest)

/-- Row loop of the aggregate select path: every row satisfying WHERE is
fed to every accumulator, and the matched flag records whether any row
did. -/
def aggLoop (em : ExternModel) (t : Table) (wq : Option Expr) (sts : List AggState)
    (matched : Bool) : List Row → Except EFault (List AggState × Bool)
  | [] => .ok (sts, matched)
  | row :: rest => do
      let keep ← whereTest em t row wq
      if keep then do
        let sts' ← stepAll em (.curRow t row) sts
        aggLoop em t wq sts' true rest
      else aggLoop em t wq sts matched rest

/-- The aggregate-mode select: validate and rewrite the projection, run
every accumulator over the matching rows, and produce one output row by
finalizing, unless no row matched, in which case the result keeps the
columns but has zero rows. -/
def evalAggregateSelectStmt (em : ExternModel) (s : SelectStmt) (t : Table)
    (projection : List Expr) : Except EFault Table := do
  let (proj', sts) ← validateAndRewrite projection []
  let (fin, matched) ← aggLoop em t s.whereClause sts false t.data
  let data ← (if matched then do
      let row ← evalProjRow em fin .empty proj'
      pure [row]
    else pure ([] : List Row))
  .ok ⟨"", aggResultColumns proj', data⟩

/-- The evalSelectStmt dispatch: the table expression must be an
identifier, stars are expanded, and a projection containing an aggregate
call switches to aggregate mode. -/
def evalSelectStmt (em : ExternModel) (env : Environment) (s : SelectStmt) :
    Except EFault Table := do
  let tname ← (match s.table with
    | .ident n => pure n
    | _ => Except.error (.errVal ("table subexpressions not supported")))
  let t ← env.lookupTable tname
  let projection := expandStar t s.columns
  if containsAggList projection then
    evalAggregateSelectStmt em s t projection
  else do
    let results ← selectRows em t s.whereClause projection t.data
    .ok ⟨"", resultColumns projection, results⟩

/-- Evaluates an INSERT statement: the VALUES expressions are evaluated in
the empty namespace before the insert mutates the table; the environment
reflects the table state the insert left behind even on fault. -/
def evalInsertStmt (em : ExternModel) (env : Environment) (s : InsertStmt) :
    Environment × Option EFault :=
  match env.lookupTable s.table with
  | .error f => (env, some f)
  | .ok t =>
      match evalProjRow em [] .empty s.values with
      | .error f => (env, some f)
      | .ok vals =>
          let (t', fq) := t.insert em s.columns vals
          (env.replaceTable s.table t', fq)

/-- The SET-clause loop of evalUpdateStmt for one row.  The Go namespace
aliases the row slice being assigned, so each right-hand side is evaluated
against the row as left by the previous assignments; a fault leaves the
partially assigned row in place. -/
def applySetClauses (em : ExternModel) (t : Table) :
    List String → List Expr → Row → Row × Option EFault
  | [], _, row => (row, none)
  | _ :: _, [], row => (row, some (.errVal ("runtime error: index out of range")))
  | c :: cs, e :: es, row =>
      match t.colIndex c with
      | none => (row, some (.errVal ("column of relation does not exist")))
      | some n =>
          match evalExpr em [] (.curRow t row) e with
          | .error f => (row, some f)
          | .ok v => applySetClauses em t cs es (row.set n v)

/-- Row loop of evalUpdateStmt: rows are updated in place, so a fault
leaves the earlier rows updated, the faulting row as far as its
assignments got, and the remaining rows untouched. -/
def updateRows (em : ExternModel) (t : Table) (cols : List String) (vals : List Expr)
    (wq : Option Expr) : List Row → List Row × Option EFault
  | [] => ([], none)
  | row :: rest =>
      match whereTest em t row wq with
      | .error f => (row :: rest, some f)
      | .ok false =>
          let (rs, fq) := updateRows em t cols vals wq rest
          (row :: rs, fq)
      | .ok true =>
          let (row', fq) := applySetClauses em t cols vals row
          match fq with
          | some f => (row' :: rest, some f)
          | none =>
              let (rs, f2) := updateRows em t cols vals wq rest
              (row' :: rs, f2)

/-- Evaluates an UPDATE statement; the shared table reflects the in-place
row mutations even when a fault interrupts the loop. -/
def evalUpdateStmt (em : ExternModel) (env : Environment) (s : UpdateStmt) :
    Environment × Option EFault :=
  match env.lookupTable s.table with
  | .error f => (env, some f)
  | .ok t =>
      let (data', fq) := updateRows em t s.columns s.values s.whereClause t.data
      (env.replaceTable s.table { t with data := data' }, fq)

/-- Row loop of evalDeleteStmt, exactly as in the source: a row is kept
only when a WHERE clause is present and evaluates to boolean false; with
no WHERE clause no row is ever appended to the replacement slice. -/
def deleteLoop (em : ExternModel) (t : Table) (wq : Option Expr) :
    List Row → Except EFault (List Row)
  | [] => .ok []
  | row :: rest =>
      match wq with
      | none => deleteLoop em t none rest
      | some w => do
          let v ← evalExpr em [] (.curRow t row) w
          let b ← valToBoolean v
          let more ← deleteLoop em t (some w) rest
          if b then .ok more else .ok (row :: more)

/-- Evaluates a DELETE statement; the replacement row slice is assigned
only after the loop completes, so a fault leaves the table untouched. -/
def evalDeleteStmt (em : ExternModel) (env : Environment) (s : DeleteStmt) :
    Environment × Option EFault :=
  match env.lookupTable s.table with
  | .error f => (env, some f)
  | .ok t =>
      match deleteLoop em t s.whereClause t.data with
      | .error f => (env, some f)
      | .ok newData => (env.replaceTable s.table { t with data := newData }, none)

/-- Observable outcome of a public entry point: a value, an ordinary
returned error, or an escaped panic. -/
inductive Outcome (α : Type) where
  | ok (a : α)
  | err (msg : String)
  | panicked (msg : String)
  deriving DecidableEq, Repr

/-- Reports whether an outcome is an escaped panic. -/
def Outcome.isPanic {α : Type} : Outcome α → Bool
  | .panicked _ => true
  | _ => false

/-- Converts a mutation result into the inner result shape. -/
def mutationResult (p : Environment × Option EFault) :
    Environment × Except EFault (Option Table) :=
  match p.2 with
  | none => (p.1, .ok none)
  | some f => (p.1, .error f)

/-- Statement dispatch of EvalStmt before the recover boundary. -/
def evalStmtInner (em : ExternModel) (env : Environment) :
    Stmt → Environment × Except EFault (Option Table)
  | .createTable s => mutationResult (evalCreateTableStmt env s)
  | .selectStmt s =>
      (env, (evalSelectStmt em env s).map (fun t => some t))
  | .insertStmt s => mutationResult (evalInsertStmt em env s)
  | .updateStmt s => mutationResult (evalUpdateStmt em env s)
  | .deleteStmt s => mutationResult (evalDeleteStmt em env s)

/-- The public EvalStmt entry point: the deferred recover converts an
error-typed panic payload directly and wraps any other payload in a
positioned evaluation error, so both fault variants become ordinary
errors and no panic escapes. -/
def EvalStmt (em : ExternModel) (env : Environment) (stmt : Stmt) :
    Environment × Outcome (Option Table) :=
  match evalStmtInner em env stmt with
  | (env', .ok t) => (env', .ok t)
  | (env', .error (.errVal m)) => (env', .err m)
  | (env', .error (.strVal m)) => (env', .err m)

/-- The single-quote character. -/
def squote : Char := Char.ofNat 39

/-- Carriage return. -/
def crChar : Char := Char.ofNat 13

/-- Line feed. -/
def lfChar : Char := Char.ofNat 10

/-- Scan loop of consumeQuotedString over the input after the opening
quote, accumulating literal runes in reverse.  A doubled quote collapses
to one quote; an unmatched quote closes the literal; exhausting the input
is the unterminated-string error.  The source guards its CRLF-merging
branch with a comparison of input at position i against LF while input at
i is the CR being inspected, so that branch never fires and a CR falls
through to the plain append, followed on the next iteration by the LF. -/
def consumeQuotedStringLoop (acc : List Char) : List Char → Option (String × List Char)
  | [] => none
  | c :: rest =>
      if c = squote then
        match rest with
        | c1 :: rest2 =>
            if c1 = squote then consumeQuotedStringLoop (squote :: acc) rest2
            else some (⟨acc.reverse⟩, rest)
        | [] => some (⟨acc.reverse⟩, [])
      else if c = crChar then
        if c = lfChar then
          match rest with
          | d :: rest2 => consumeQuotedStringLoop (d :: c :: acc) rest2
          | [] => none
        else consumeQuotedStringLoop (c :: acc) rest
      else consumeQuotedStringLoop (c :: acc) rest

/-- consumeQuotedString of lexer/lexer.go, entered at the opening quote:
yields the token literal text and the remaining input, or none for the
unterminated-string error.  The source panics when not positioned at a
quote; that unreachable guard is collapsed into none. -/
def consumeQuotedString : List Char → Option (String × List Char)
  | c :: rest => if c = squote then consumeQuotedStringLoop [] rest else none
  | [] => none

/-- Parser error (parser/error.go), position dropped. -/
structure PError where
  msg : String
  deriving DecidableEq, Repr

/-- Parser token-source state: the tokens not yet consumed, the head being
the one-token lookahead, plus the lexer error hit after the last good
token, if any.  An exhausted source presents the zero-value Invalid
token. -/
structure PState where
  toks : List Token
  lexErr : Option String
  deriving DecidableEq, Repr

/-- The zero-value token an exhausted lexer presents. -/
def invalidToken : Token := ⟨.invalid, ""⟩

/-- Current lookahead token. -/
def PState.curTok (st : PState) : Token := st.toks.headD invalidToken

/-- Kind of the current lookahead token. -/
def PState.curKind (st : PState) : Kind := st.curTok.kind

/-- Remaining state strictly smaller than n tokens. -/
abbrev PSub (n : Nat) := {st : PState // st.toks.length < n}

/-- Remaining state at most n tokens. -/
abbrev PSubLe (n : Nat) := {st : PState // st.toks.length ≤ n}

/-- The parser skip helper: the current token must already have the given
kind; advancing past the last token surfaces a pending lexer error as a
panic (parser.next).  The empty case is unreachable because no call site
skips the Invalid kind. -/
def skipTokS (k : Kind) (st : PState) : Except PError (PSub st.toks.length) :=
  match h : st.toks with
  | [] => .error ⟨"tried to skip at end of input"⟩
  | t :: rest =>
      if t.kind = k then
        if rest.isEmpty ∧ st.lexErr.isSome then .error ⟨(st.lexErr.getD "")⟩
        else .ok ⟨⟨rest, st.lexErr⟩, by simp⟩
      else .error ⟨"tried to skip a different token"⟩

/-- The parser match helper: advances past a token of the given kind or
raises the expected-token parse error; a pending lexer error panics when
the last good token is consumed.  At end of input the Invalid lookahead
never matches the kind any call site demands. -/
def matchTokS (k : Kind) (st : PState) : Except PError (Token × PSub st.toks.length) :=
  match h : st.toks with
  | [] => .error ⟨"current token does not match the expected kinds"⟩
  | t :: rest =>
      if t.kind = k then
        if rest.isEmpty ∧ st.lexErr.isSome then .error ⟨(st.lexErr.getD "")⟩
        else .ok (t, ⟨⟨rest, st.lexErr⟩, by simp⟩)
      else .error ⟨"current token does not match the expected kinds"⟩

/-- The parser next helper without a kind check (p.next), used only where
the dispatch has already inspected the current kind, so the stream is
never empty at a call site. -/
def pnextS (st : PState) : Except PError (Token × PSub st.toks.length) :=
  match h : st.toks with
  | [] => .error ⟨"next at end of input"⟩
  | t :: rest =>
      if rest.isEmpty ∧ st.lexErr.isSome then .error ⟨(st.lexErr.getD "")⟩
      else .ok (t, ⟨⟨rest, st.lexErr⟩, by simp⟩)

/-- Post-hoc classification of a numeric literal (parseNumberLiteral): an
all-digit literal becomes an integer (ParseInt with its error ignored),
anything else a floating value (ParseFloat with its error ignored). -/
def classifyNumberLit (tok : Token) : Expr :=
  if tok.lit.toList.all Char.isDigit then .intLit (goParseIntLenient tok.lit)
  else .numLit (goParseFloatLenient tok.lit)

mutual

/-- parseUnaryExpr: parenthesized subexpression, identifier or function
call, unary sign (whose operand is a full parseExpr, as in the source),
or literal; anything else is the expected-token parse error. -/
def parseUnaryExpr (st : PState) : Except PError (Expr × PSub st.toks.length) :=
  match st.curKind with
  | .leftParen =>
      match skipTokS .leftParen st with
      | .error e => .error e
      | .ok ⟨st1, h1⟩ =>
          match parseBinaryExpr 1 st1 with
          | .error e => .error e
          | .ok (e, ⟨st2, h2⟩) =>
              match matchTokS .rightParen st2 with
              | .error er => .error er
              | .ok (_, ⟨st3, h3⟩) => .ok (e, ⟨st3, by omega⟩)
  | .ident =>
      match pnextS st with
      | .error e => .error e
      | .ok (tok, ⟨st1, h1⟩) =>
          if st1.curKind = Kind.leftParen then
            match skipTokS .leftParen st1 with
            | .error e => .error e
            | .ok ⟨st2, h2⟩ =>
                match parseSelectExprList st2 with
                | .error e => .error e
                | .ok (args, ⟨st3, h3⟩) =>
                    match matchTokS .rightParen st3 with
                    | .error e => .error e
                    | .ok (_, ⟨st4, h4⟩) => .ok (.call tok.lit args, ⟨st4, by omega⟩)
          else .ok (.ident tok.lit, ⟨st1, h1⟩)
  | .plus | .minus =>
      match pnextS st with
      | .error e => .error e
      | .ok (tok, ⟨st1, h1⟩) =>
          match parseBinaryExpr 1 st1 with
          | .error e => .error e
          | .ok (e, ⟨st2, h2⟩) => .ok (.unary tok.kind e, ⟨st2, by omega⟩)
  | .numberLiteral =>
      match matchTokS .numberLiteral st with
      | .error e => .error e
      | .ok (tok, st1) => .ok (classifyNumberLit tok, st1)
  | .stringLiteral =>
      match pnextS st with
      | .error e => .error e
      | .ok (tok, st1) => .ok (.strLit tok.lit, st1)
  | .trueKw =>
      match pnextS st with
      | .error e => .error e
      | .ok (_, st1) => .ok (.boolLit true, st1)
  | .falseKw =>
      match pnextS st with
      | .error e => .error e
      | .ok (_, st1) => .ok (.boolLit false, st1)
  | .nullKw =>
      match pnextS st with
      | .error e => .error e
      | .ok (_, st1) => .ok (.nullLit, st1)
  | _ => .error ⟨"expected LeftParen, Ident, Null, NumberLiteral or StringLiteral"⟩
termination_by st.toks.length * 8 + 1
decreasing_by
  all_goals simp_wf
  all_goals omega

/-- parseBinaryExpr: a unary primary followed by the precedence-climbing
loop. -/
def parseBinaryExpr (minPrec : Nat) (st : PState) : Except PError (Expr × PSub st.toks.length) :=
  match parseUnaryExpr st with
  | .error e => .error e
  | .ok (e, ⟨st1, h1⟩) =>
      match parseBinaryLoop minPrec e st1 with
      | .error e2 => .error e2
      | .ok (e2, ⟨st2, h2⟩) => .ok (e2, ⟨st2, by omega⟩)
termination_by st.toks.length * 8 + 2
decreasing_by
  all_goals simp_wf
  all_goals omega

/-- The climbing loop of parseBinaryExpr: while the lookahead operator has
precedence at least the floor, consume it and parse the right side with
floor one higher (left associativity). -/
def parseBinaryLoop (minPrec : Nat) (lhs : Expr) (st : PState) :
    Except PError (Expr × PSubLe st.toks.length) :=
  let op := st.curKind
  if op.precedence < minPrec then .ok (lhs, ⟨st, Nat.le_refl _⟩)
  else
    match skipTokS op st with
    | .error e => .error e
    | .ok ⟨st1, h1⟩ =>
        match parseBinaryExpr (op.precedence + 1) st1 with
        | .error e => .error e
        | .ok (rhs, ⟨st2, h2⟩) =>
            match parseBinaryLoop minPrec (.binary lhs op rhs) st2 with
            | .error e => .error e
            | .ok (e, ⟨st3, h3⟩) => .ok (e, ⟨st3, by omega⟩)
termination_by st.toks.length * 8
decreasing_by
  all_goals simp_wf
  all_goals omega

/-- parseExprOrStar: a bare star in a projection-style list, or a full
expression. -/
def parseExprOrStar (st : PState) : Except PError (Expr × PSub st.toks.length) :=
  if st.curKind = Kind.mul then
    match skipTokS .mul st with
    | .error e => .error e
    | .ok st1 => .ok (.star, st1)
  else parseBinaryExpr 1 st
termination_by st.toks.length * 8 + 3
decreasing_by
  all_goals simp_wf

/-- parseSelectExprList: one or more projection-style expressions
separated by commas. -/
def parseSelectExprList (st : PState) : Except PError (List Expr × PSub st.toks.length) :=
  match parseExprOrStar st with
  | .error e => .error e
  | .ok (e, ⟨st1, h1⟩) =>
      match parseSelectExprMore st1 with
      | .error e2 => .error e2
      | .ok (es, ⟨st2, h2⟩) => .ok (e :: es, ⟨st2, by omega⟩)
termination_by st.toks.length * 8 + 4
decreasing_by
  all_goals simp_wf
  all_goals omega

/-- Comma-continuation of parseSelectExprList. -/
def parseSelectExprMore (st : PState) : Except PError (List Expr × PSubLe st.toks.length) :=
  if st.curKind = Kind.comma then
    match skipTokS .comma st with
    | .error e => .error e
    | .ok ⟨st1, h1⟩ =>
        match parseExprOrStar st1 with
        | .error e => .error e
        | .ok (e, ⟨st2, h2⟩) =>
            match parseSelectExprMore st2 with
            | .error e2 => .error e2
            | .ok (es, ⟨st3, h3⟩) => .ok (e :: es, ⟨st3, by omega⟩)
  else .ok ([], ⟨st, Nat.le_refl _⟩)
termination_by st.toks.length * 8
decreasing_by
  all_goals simp_wf
  all_goals omega

end

/-- parseExpr: a binary expression seeded at minimum precedence 1. -/
def parseExpr (st : PState) : Except PError (Expr × PSub st.toks.length) :=
  parseBinaryExpr 1 st

/-- parseIdent: a single identifier token. -/
def parseIdent (st : PState) : Except PError (String × PSub st.toks.length) :=
  match matchTokS .ident st with
  | .error e => .error e
  | .ok (tok, st1) => .ok (tok.lit, st1)

/-- Comma-continuation of parseExprList. -/
def parseExprListMore (st : PState) : Except PError (List Expr × PSubLe st.toks.length) :=
  if st.curKind = Kind.comma then
    match skipTokS .comma st with
    | .error e => .error e
    | .ok ⟨st1, h1⟩ =>
        match parseExpr st1 with
        | .error e => .error e
        | .ok (e, ⟨st2, h2⟩) =>
            match parseExprListMore st2 with
            | .error e2 => .error e2
            | .ok (es, ⟨st3, h3⟩) => .ok (e :: es, ⟨st3, by omega⟩)
  else .ok ([], ⟨st, Nat.le_refl _⟩)
termination_by st.toks.length
decreasing_by
  all_goals simp_wf
  all_goals omega

/-- parseExprList: one or more expressions separated by commas. -/
def parseExprList (st : PState) : Except PError (List Expr × PSub st.toks.length) :=
  match parseExpr st with
  | .error e => .error e
  | .ok (e, ⟨st1, h1⟩) =>
      match parseExprListMore st1 with
      | .error e2 => .error e2
      | .ok (es, ⟨st2, h2⟩) => .ok (e :: es, ⟨st2, by omega⟩)

/-- The optional WHERE clause shared by SELECT, UPDATE and DELETE. -/
def parseOptWhere (st : PState) : Except PError (Option Expr × PSubLe st.toks.length) :=
  if st.curKind = Kind.whereKw then
    match skipTokS .whereKw st with
    | .error e => .error e
    | .ok ⟨st1, h1⟩ =>
        match parseExpr st1 with
        | .error e => .error e
        | .ok (e, ⟨st2, h2⟩) => .ok (some e, ⟨st2, by omega⟩)
  else .ok (none, ⟨st, Nat.le_refl _⟩)

/-- The data-type alternative of a column definition: one of the five type
keywords. -/
def parseDataTypeKind (st : PState) : Except PError (Kind × PSub st.toks.length) :=
  match st.curKind with
  | .boolean | .integer | .number | .varchar | .timestamp =>
      match pnextS st with
      | .error e => .error e
      | .ok (tok, st1) => .ok (tok.kind, st1)
  | _ => .error ⟨"expected BOOLEAN, INTEGER, NUMBER, VARCHAR or TIMESTAMP"⟩

/-- The optional nullability clause of a column definition: NOT NULL,
bare NULL, or nothing (nullable by default). -/
def parseNullability (st : PState) : Except PError (Bool × PSubLe st.toks.length) :=
  if st.curKind = Kind.notKw then
    match skipTokS .notKw st with
    | .error e => .error e
    | .ok ⟨st1, h1⟩ =>
        match matchTokS .nullKw st1 with
        | .error e => .error e
        | .ok (_, ⟨st2, h2⟩) => .ok (false, ⟨st2, by omega⟩)
  else if st.curKind = Kind.nullKw then
    match skipTokS .nullKw st with
    | .error e => .error e
    | .ok ⟨st1, h1⟩ => .ok (true, ⟨st1, by omega⟩)
  else .ok (true, ⟨st, Nat.le_refl _⟩)

/-- The comma-separated column definitions of parseColumnDefinitions. -/
def parseColumnDefLoop (st : PState) : Except PError (List ColumnDefinition × PSub st.toks.length) :=
  match parseIdent st with
  | .error e => .error e
  | .ok (name, ⟨st1, h1⟩) =>
      match parseDataTypeKind st1 with
      | .error e => .error e
      | .ok (dk, ⟨st2, h2⟩) =>
          match parseNullability st2 with
          | .error e => .error e
          | .ok (nullable, ⟨st3, h3⟩) =>
              if st3.curKind = Kind.comma then
                match skipTokS .comma st3 with
                | .error e => .error e
                | .ok ⟨st4, h4⟩ =>
                    match parseColumnDefLoop st4 with
                    | .error e => .error e
                    | .ok (cds, ⟨st5, h5⟩) =>
                        .ok (⟨name, dk, nullable⟩ :: cds, ⟨st5, by omega⟩)
              else .ok ([⟨name, dk, nullable⟩], ⟨st3, by omega⟩)
termination_by st.toks.length
decreasing_by
  all_goals simp_wf
  all_goals omega

/-- parseColumnDefinitions: the parenthesized column-definition list. -/
def parseColumnDefinitions (st : PState) : Except PError (List ColumnDefinition × PSub st.toks.length) :=
  match matchTokS .leftParen st with
  | .error e => .error e
  | .ok (_, ⟨st1, h1⟩) =>
      match parseColumnDefLoop st1 with
      | .error e => .error e
      | .ok (cds, ⟨st2, h2⟩) =>
          match matchTokS .rightParen st2 with
          | .error e => .error e
          | .ok (_, ⟨st3, h3⟩) => .ok (cds, ⟨st3, by omega⟩)

/-- parseCreateTableStmt. -/
def parseCreateTableStmt (st : PState) : Except PError (Stmt × PSub st.toks.length) :=
  match matchTokS .create st with
  | .error e => .error e
  | .ok (_, ⟨st1, h1⟩) =>
      match matchTokS .table st1 with
      | .error e => .error e
      | .ok (_, ⟨st2, h2⟩) =>
          match parseIdent st2 with
          | .error e => .error e
          | .ok (name, ⟨st3, h3⟩) =>
              match parseColumnDefinitions st3 with
              | .error e => .error e
              | .ok (cols, ⟨st4, h4⟩) =>
                  .ok (.createTable ⟨name, cols⟩, ⟨st4, by omega⟩)

/-- parseSelectStmt: projection list, FROM with a table identifier,
optional WHERE. -/
def parseSelectStmt (st : PState) : Except PError (Stmt × PSub st.toks.length) :=
  match matchTokS .select st with
  | .error e => .error e
  | .ok (_, ⟨st1, h1⟩) =>
      match parseSelectExprList st1 with
      | .error e => .error e
      | .ok (cols, ⟨st2, h2⟩) =>
          match matchTokS .fromKw st2 with
          | .error e => .error e
          | .ok (_, ⟨st3, h3⟩) =>
              match parseIdent st3 with
              | .error e => .error e
              | .ok (tname, ⟨st4, h4⟩) =>
                  match parseOptWhere st4 with
                  | .error e => .error e
                  | .ok (wq, ⟨st5, h5⟩) =>
                      .ok (.selectStmt ⟨cols, .ident tname, wq⟩, ⟨st5, by omega⟩)

/-- Comma-continuation of the explicit column-name list of an INSERT. -/
def parseIdentListMore (st : PState) : Except PError (List String × PSubLe st.toks.length) :=
  if st.curKind = Kind.comma then
    match skipTokS .comma st with
    | .error e => .error e
    | .ok ⟨st1, h1⟩ =>
        match parseIdent st1 with
        | .error e => .error e
        | .ok (c, ⟨st2, h2⟩) =>
            match parseIdentListMore st2 with
            | .error e2 => .error e2
            | .ok (cs, ⟨st3, h3⟩) => .ok (c :: cs, ⟨st3, by omega⟩)
  else .ok ([], ⟨st, Nat.le_refl _⟩)
termination_by st.toks.length
decreasing_by
  all_goals simp_wf
  all_goals omega

/-- The optional parenthesized column-name list of an INSERT. -/
def parseOptColumnList (st : PState) : Except PError (List String × PSubLe st.toks.length) :=
  if st.curKind = Kind.leftParen then
    match skipTokS .leftParen st with
    | .error e => .error e
    | .ok ⟨st1, h1⟩ =>
        match parseIdent st1 with
        | .error e => .error e
        | .ok (c, ⟨st2, h2⟩) =>
            match parseIdentListMore st2 with
            | .error e => .error e
            | .ok (cs, ⟨st3, h3⟩) =>
                match matchTokS .rightParen st3 with
                | .error e => .error e
                | .ok (_, ⟨st4, h4⟩) => .ok (c :: cs, ⟨st4, by omega⟩)
  else .ok ([], ⟨st, Nat.le_refl _⟩)

/-- parseInsertStmt: INTO table, optional column list, VALUES and the
parenthesized expression list. -/
def parseInsertStmt (st : PState) : Except PError (Stmt × PSub st.toks.length) :=
  match matchTokS .insert st with
  | .error e => .error e
  | .ok (_, ⟨st1, h1⟩) =>
      match matchTokS .into st1 with
      | .error e => .error e
      | .ok (_, ⟨st2, h2⟩) =>
          match parseIdent st2 with
          | .error e => .error e
          | .ok (tname, ⟨st3, h3⟩) =>
              match parseOptColumnList st3 with
              | .error e => .error e
              | .ok (cols, ⟨st4, h4⟩) =>
                  match matchTokS .valuesKw st4 with
                  | .error e => .error e
                  | .ok (_, ⟨st5, h5⟩) =>
                      match matchTokS .leftParen st5 with
                      | .error e => .error e
                      | .ok (_, ⟨st6, h6⟩) =>
                          match parseExprList st6 with
                          | .error e => .error e
                          | .ok (vals, ⟨st7, h7⟩) =>
                              match matchTokS .rightParen st7 with
                              | .error e => .error e
                              | .ok (_, ⟨st8, h8⟩) =>
                                  .ok (.insertStmt ⟨tname, cols, vals⟩, ⟨st8, by omega⟩)

/-- Comma-continuation of the SET-pair list of an UPDATE. -/
def parseSetPairsMore (st : PState) : Except PError ((List String × List Expr) × PSubLe st.toks.length) :=
  if st.curKind = Kind.comma then
    match skipTokS .comma st with
    | .error e => .error e
    | .ok ⟨st1, h1⟩ =>
        match parseIdent st1 with
        | .error e => .error e
        | .ok (c, ⟨st2, h2⟩) =>
            match matchTokS .equal st2 with
            | .error e => .error e
            | .ok (_, ⟨st3, h3⟩) =>
                match parseExpr st3 with
                | .error e => .error e
                | .ok (v, ⟨st4, h4⟩) =>
                    match parseSetPairsMore st4 with
                    | .error e => .error e
                    | .ok ((cs, vs), ⟨st5, h5⟩) =>
                        .ok ((c :: cs, v :: vs), ⟨st5, by omega⟩)
  else .ok (([], []), ⟨st, Nat.le_refl _⟩)
termination_by st.toks.length
decreasing_by
  all_goals simp_wf
  all_goals omega

/-- parseUpdateStmt, including the deliberate accommodation of an optional
parenthesized SET clause. -/
def parseUpdateStmt (st : PState) : Except PError (Stmt × PSub st.toks.length) :=
  match matchTokS .update st with
  | .error e => .error e
  | .ok (_, ⟨st1, h1⟩) =>
      match parseIdent st1 with
      | .error e => .error e
      | .ok (tname, ⟨st2, h2⟩) =>
          match matchTokS .set st2 with
          | .error e => .error e
          | .ok (_, ⟨st3, h3⟩) =>
              match (if st3.curKind = Kind.leftParen then
                       (skipTokS .leftParen st3).map (fun s => (true, (⟨s.val, Nat.le_of_lt s.property⟩ : PSubLe st3.toks.length)))
                     else .ok (false, ⟨st3, Nat.le_refl _⟩)) with
              | .error e => .error e
              | .ok (closeParen, ⟨st4, h4⟩) =>
                  match parseIdent st4 with
                  | .error e => .error e
                  | .ok (c1, ⟨st5, h5⟩) =>
                      match matchTokS .equal st5 with
                      | .error e => .error e
                      | .ok (_, ⟨st6, h6⟩) =>
                          match parseExpr st6 with
                          | .error e => .error e
                          | .ok (v1, ⟨st7, h7⟩) =>
                              match parseSetPairsMore st7 with
                              | .error e => .error e
                              | .ok ((cs, vs), ⟨st8, h8⟩) =>
                                  match (if closeParen then
                                           (matchTokS .rightParen st8).map
                                             (fun p => (⟨p.2.val, Nat.le_of_lt p.2.property⟩ : PSubLe st8.toks.length))
                                         else .ok ⟨st8, Nat.le_refl _⟩) with
                                  | .error e => .error e
                                  | .ok ⟨st9, h9⟩ =>
                                      match parseOptWhere st9 with
                                      | .error e => .error e
                                      | .ok (wq, ⟨st10, h10⟩) =>
                                          .ok (.updateStmt ⟨tname, c1 :: cs, v1 :: vs, wq⟩,
                                               ⟨st10, by omega⟩)

/-- parseDeleteStmt: FROM table, optional WHERE. -/
def parseDeleteStmt (st : PState) : Except PError (Stmt × PSub st.toks.length) :=
  match matchTokS .delete st with
  | .error e => .error e
  | .ok (_, ⟨st1, h1⟩) =>
      match matchTokS .fromKw st1 with
      | .error e => .error e
      | .ok (_, ⟨st2, h2⟩) =>
          match parseIdent st2 with
          | .error e => .error e
          | .ok (tname, ⟨st3, h3⟩) =>
              match parseOptWhere st3 with
              | .error e => .error e
              | .ok (wq, ⟨st4, h4⟩) =>
                  .ok (.deleteStmt ⟨tname, wq⟩, ⟨st4, by omega⟩)

/-- Statement dispatch by leading keyword; any other leading token is a
parse error enumerating the expected kinds. -/
def parseStmt (st : PState) : Except PError (Stmt × PSub st.toks.length) :=
  match st.curKind with
  | .create => parseCreateTableStmt st
  | .select => parseSelectStmt st
  | .insert => parseInsertStmt st
  | .update => parseUpdateStmt st
  | .delete => parseDeleteStmt st
  | _ => .error ⟨"expected SELECT, INSERT, UPDATE or DELETE"⟩

/-- parseStmtList: statements until the lookahead is the Invalid
end-of-input token, each followed by a semicolon. -/
def parseStmtList (st : PState) : Except PError (List Stmt) :=
  if st.curKind = Kind.invalid then .ok []
  else
    match parseStmt st with
    | .error e => .error e
    | .ok (s, ⟨st1, _h1⟩) =>
        match matchTokS .semicolon st1 with
        | .error e => .error e
        | .ok (_, ⟨st2, _h2⟩) =>
            match parseStmtList st2 with
            | .error e => .error e
            | .ok rest => .ok (s :: rest)
termination_by st.toks.length
decreasing_by
  all_goals simp_wf
  all_goals omega

/-- The public Parse entry point over a token source: the token sequence
the lexer produces plus the lexer error that stopped it, if any.  An empty
source reproduces the initial-scan handling of Parse; otherwise the
statement list is parsed and any fault is returned as an ordinary error.
The deferred recover in the Go source re-raises a payload that does not
implement the error interface, but every panic site reachable from Parse
raises a parser or lexer error value, which is why the fault type PError
has no non-error variant and the panicked outcome cannot arise. -/
def Parse (toks : List Token) (lexErr : Option String) : Outcome (List Stmt) :=
  match toks with
  | [] =>
      match lexErr with
      | some e => .err e
      | none => .ok []
  | _ :: _ =>
      match parseStmtList ⟨toks, lexErr⟩ with
      | .ok stmts => .ok stmts
      | .error pe => .err pe.msg

/-
Concrete fixtures shared by witnesses and counterexamples.
-/

/-- A nullable integer column named a. -/
def colA : Column := ⟨"a", .integer, none, true, false, 0⟩

/-- A nullable integer column named b. -/
def colB : Column := ⟨"b", .integer, none, true, false, 0⟩

/-- The placeholder result column of an aggregate projection. -/
def qCol : Column := ⟨"?", .invalidDataType, none, false, false, 0⟩

/-- A one-column one-row table t with a = 1. -/
def tabOne : Table := ⟨"t", [colA], [[some (.integer 1)]]⟩

/-- A two-column one-row table t with a = 1 and b = 10. -/
def tabAB : Table := ⟨"t", [colA, colB], [[some (.integer 1), some (.integer 10)]]⟩

/-- The rational five halves as an explicit structure literal. -/
def fiveHalves : Rat := ⟨5, 2, by decide, by decide⟩

/-- A one-column table t whose rows carry the Integer 1 and then the
Number five halves, the promotion scenario of claim C3. -/
def tabMM : Table := ⟨"t", [colA], [[some (.integer 1)], [some (.number fiveHalves)]]⟩

/-
Theorems settling the claims.
-/

/-- C3.  The spec claims MIN finalizes to the minimum of the Integer and
Number row values even after promotion to floating accumulation.  The code
disagrees: the setFloat helper of minMaxAggFunc inverts its comparisons
relative to setInt, so SELECT MIN(a) over the rows 1 (Integer) and 5/2
(Number) finalizes to 5/2, although the minimum of the two values is 1.
The code contradicts the evident intent of the surrounding function (the
setInt direction, the function name, the MIN error message), a slip in the
float branch. -/
theorem minMaxAggFunc_floatPromotion_bug :
    evalSelectStmt emStd ⟨[tabMM]⟩ ⟨[.call "min" [.ident "a"]], .ident "t", none⟩
      = .ok ⟨"", [qCol], [[some (Value.number fiveHalves)]]⟩
    ∧ ratOfInt 1 ≤ fiveHalves
    ∧ fiveHalves ≠ ratOfInt 1 := by
  refine ⟨by decide, by decide, by decide⟩

/-- C4.  The spec claims a comparison with a String on the left and an
Integer on the right coerces the string and compares it with the right
operand.  In the source the String-lhs branches compute their converted
value from rhs instead of lhs (val := rhs.toInteger() on an rhs that is
already an IntegerValue), so the string is never parsed and the comparison
degenerates to the right operand against itself: the string seven compared
equal to 3 yields true, although parsing seven gives 7 and 7 = 3 is
false.  The mirrored Integer-lhs branches show the intended symmetric
behaviour, so this is a copy slip in the code. -/
theorem comparisonOp_stringLhs_bug :
    comparisonOp emStd .equal (some (.stringV "7")) (some (.integer 3)) = .ok true
    ∧ goParseInt "7" = some 7
    ∧ cmpInts .equal 7 3 = .ok false := by
  refine ⟨by decide, by decide, by decide⟩

/-- C1 counterexample.  The claim says a DELETE without a WHERE clause
deletes nothing.  Evaluating DELETE FROM t on a one-row table leaves an
empty row sequence: the loop appends a row to the replacement slice only
under a present WHERE clause, so an absent clause deletes every row. -/
theorem deleteStmt_absentWhere_deletesAll_cex :
    evalDeleteStmt emStd ⟨[tabOne]⟩ ⟨"t", none⟩
      = (⟨[⟨"t", [colA], []⟩]⟩, none)
    ∧ ([] : List Row) ≠ [[some (Value.integer 1)]] := by
  refine ⟨by decide, by decide⟩

/-- C2 counterexample.  The claim says SELECT COUNT(*) with a WHERE false
for every row of a non-empty table returns one row holding 0.  The
aggregate path returns an empty result set whenever no row matched, so the
result has zero rows, not one row with 0. -/
theorem aggregateSelect_noMatch_zeroRows_cex :
    evalSelectStmt emStd ⟨[tabOne]⟩ ⟨[.call "count" [.star]], .ident "t", some (.boolLit false)⟩
      = .ok ⟨"", [qCol], []⟩
    ∧ ([] : List Row) ≠ [[some (Value.integer 0)]] := by
  refine ⟨by decide, by decide⟩

/-- C5 counterexample.  The claim says every assignment of an UPDATE sees
the row's original values.  Evaluating UPDATE t SET a = 2, b = a on the
row (1, 10) yields (2, 2): the namespace aliases the row being assigned,
so the second right-hand side reads the 2 written by the first assignment,
not the original 1. -/
theorem updateStmt_selfReference_cex :
    evalUpdateStmt emStd ⟨[tabAB]⟩ ⟨"t", ["a", "b"], [.intLit 2, .ident "a"], none⟩
      = (⟨[⟨"t", [colA, colB], [[some (.integer 2), some (.integer 2)]]⟩]⟩, none)
    ∧ [[some (Value.integer 2), some (Value.integer 2)]]
        ≠ [[some (Value.integer 2), some (Value.integer 1)]] := by
  refine ⟨by decide, by decide⟩

/-- C6 counterexample.  The claim says a row whose WHERE predicate
evaluates to null is excluded without error.  Evaluating SELECT a FROM t
WHERE NULL on a one-row table faults instead: the evaluator calls
toBoolean on the nil interface value, a nil dereference recovered as an
ordinary error, so the statement errors rather than returning the empty
result the claim predicts. -/
theorem selectStmt_nullWhere_error_cex :
    evalSelectStmt emStd ⟨[tabOne]⟩ ⟨[.ident "a"], .ident "t", some .nullLit⟩
      = .error nilDeref
    ∧ (Except.error nilDeref : Except EFault Table)
        ≠ .ok ⟨"", resultColumns [.ident "a"], []⟩ := by
  refine ⟨by decide, by decide⟩

/-- C8 counterexample.  The claim says a CRLF inside a quoted string is
normalized to a single LF in the token literal.  The CRLF-merging branch
of consumeQuotedString is dead (its guard compares the CR being inspected
against LF), so both characters are kept verbatim: the literal for
CR LF differs from the literal the LF-only input produces. -/
theorem quotedString_crlf_verbatim_cex :
    consumeQuotedString [squote, 'a', crChar, lfChar, 'b', squote]
      = some (⟨['a', crChar, lfChar, 'b']⟩, [])
    ∧ consumeQuotedString [squote, 'a', lfChar, 'b', squote]
      = some (⟨['a', lfChar, 'b']⟩, [])
    ∧ (⟨['a', crChar, lfChar, 'b']⟩ : String) ≠ ⟨['a', lfChar, 'b']⟩ := by
  refine ⟨by decide, by decide, by decide⟩

/-- C9.  Parse and EvalStmt are total functions of their embedded inputs
(the definitions go through well-founded recursion on the remaining token
count, which is the termination argument for the Go recursive descent),
and both convert every internal fault into an ordinary returned value:
Parse maps the parser and lexer error payloads (the only payloads its
panic sites raise) to the error outcome, and the EvalStmt recover converts
an error-typed payload directly and wraps a plain-string payload, so
neither entry point ever yields the panicked outcome. -/
theorem parse_evalStmt_noPanic :
    (∀ (toks : List Token) (lexErr : Option String), (Parse toks lexErr).isPanic = false)
    ∧ (∀ (em : ExternModel) (env : Environment) (s : Stmt),
        ((EvalStmt em env s).2).isPanic = false) := by
  constructor
  · intro toks lexErr
    cases toks with
    | nil => cases lexErr <;> rfl
    | cons t rest =>
        unfold Parse
        cases parseStmtList ⟨t :: rest, lexErr⟩ <;> rfl
  · intro em env s
    unfold EvalStmt
    rcases h : evalStmtInner em env s with ⟨env', r⟩
    rcases r with f | t
    · rcases f with m | m <;> simp [Outcome.isPanic]
    · simp [Outcome.isPanic]

/-- C10.  Insert is atomic with respect to the row sequence: every check
(arity, target-column existence, not-null, coercion) runs before the
single append, so a faulting insert leaves the data unchanged and a
successful insert appends exactly one row.  (The auto-increment counters
of the columns may still advance on a failed named insert, but the row
sequence is untouched.) -/
theorem insert_atomicity (em : ExternModel) (t : Table) (names : List String) (values : List Val) :
    ((t.insert em names values).2.isSome → ((t.insert em names values).1).data = t.data)
    ∧ ((t.insert em names values).2 = none →
        ∃ row, ((t.insert em names values).1).data = t.data ++ [row]) := by
  rcases hr : t.insert em names values with ⟨t', f⟩
  simp only [Table.insert] at hr
  repeat' split at hr
  all_goals cases hr
  all_goals refine ⟨fun h => ?_, fun h => ?_⟩
  all_goals first
    | rfl
    | exact ⟨_, rfl⟩
    | simp_all

/-
Helper observables and lemmas for the general statement-level theorems.
-/

/-- The boolean a WHERE clause yields for a row, if it yields one: some b
when the predicate (or its absence, which counts as true) evaluates to the
boolean b, none when the evaluation faults. -/
def whereRes (em : ExternModel) (t : Table) (wq : Option Expr) (row : Row) : Option Bool :=
  match whereTest em t row wq with
  | .ok b => some b
  | .error _ => none

theorem whereRes_some {em : ExternModel} {t : Table} {wq : Option Expr} {row : Row} {b : Bool} :
    whereRes em t wq row = some b ↔ whereTest em t row wq = .ok b := by
  unfold whereRes
  rcases h : whereTest em t row wq with f | b' <;> simp

theorem whereRes_none_clause (em : ExternModel) (t : Table) (row : Row) :
    whereRes em t none row = some true := rfl

theorem lookupTable_single (t : Table) :
    Environment.lookupTable ⟨[t]⟩ t.name = .ok t := by
  simp [Environment.lookupTable]

theorem replaceTable_single (t t' : Table) :
    Environment.replaceTable ⟨[t]⟩ t.name t' = ⟨[t']⟩ := by
  simp [Environment.replaceTable]

theorem deleteLoop_noClause (em : ExternModel) (t : Table) :
    ∀ rows : List Row, deleteLoop em t none rows = .ok [] := by
  intro rows
  induction rows with
  | nil => rfl
  | cons r rest ih => simp [deleteLoop, ih]

theorem deleteLoop_cons (em : ExternModel) (t : Table) (w : Expr) (r : Row) (rest : List Row) :
    deleteLoop em t (some w) (r :: rest)
      = (do
          let b ← whereTest em t r (some w)
          let more ← deleteLoop em t (some w) rest
          if b then .ok more else .ok (r :: more)) := by
  simp only [deleteLoop, whereTest]
  rcases h : evalExpr em [] (.curRow t r) w with f | v
  · rfl
  · simp only [ex_bind_ok]

theorem deleteLoop_filter (em : ExternModel) (t : Table) (w : Expr) :
    ∀ rows : List Row,
      rows.all (fun row => (whereRes em t (some w) row).isSome) = true →
      deleteLoop em t (some w) rows
        = .ok (rows.filter (fun row => decide (whereRes em t (some w) row = some false))) := by
  intro rows
  induction rows with
  | nil => intro _; rfl
  | cons r rest ih =>
      intro h
      rw [List.all_cons, Bool.and_eq_true] at h
      obtain ⟨h1, h2⟩ := h
      obtain ⟨b, hb⟩ := Option.isSome_iff_exists.mp h1
      have hw : whereTest em t r (some w) = .ok b := whereRes_some.mp hb
      rw [deleteLoop_cons, hw, ih h2]
      cases b <;> simp [List.filter_cons, hb, ex_bind_ok]

/-- C1 amended.  With a WHERE clause whose evaluation yields a boolean for
every row, DELETE replaces the row sequence with exactly the rows where
the clause evaluates to boolean false; with no WHERE clause it deletes
every row, leaving the sequence empty. -/
theorem deleteStmt_filter_semantics (em : ExternModel) (t : Table) (w : Expr)
    (hb : t.data.all (fun row => (whereRes em t (some w) row).isSome) = true) :
    evalDeleteStmt em ⟨[t]⟩ ⟨t.name, some w⟩
      = (⟨[{ t with data :=
            t.data.filter (fun row => decide (whereRes em t (some w) row = some false)) }]⟩, none)
    ∧ evalDeleteStmt em ⟨[t]⟩ ⟨t.name, none⟩
      = (⟨[{ t with data := ([] : List Row) }]⟩, none) := by
  constructor
  · simp [evalDeleteStmt, lookupTable_single, deleteLoop_filter em t w t.data hb,
      replaceTable_single]
  · simp [evalDeleteStmt, lookupTable_single, deleteLoop_noClause, replaceTable_single]

/-- Witness for the amended DELETE semantics on a concrete table: the row
a = 1 survives DELETE FROM t WHERE a = 2 and the absent-WHERE form empties
the table. -/
theorem deleteStmt_filter_semantics_witness :
    ((tabOne.data.all (fun row =>
        (whereRes emStd tabOne (some (.binary (.ident "a") .equal (.intLit 2))) row).isSome)) = true)
    ∧ (evalDeleteStmt emStd ⟨[tabOne]⟩ ⟨"t", some (.binary (.ident "a") .equal (.intLit 2))⟩
        = (⟨[{ tabOne with data :=
              tabOne.data.filter (fun row => decide
                (whereRes emStd tabOne (some (.binary (.ident "a") .equal (.intLit 2))) row
                  = some false)) }]⟩, none)
       ∧ evalDeleteStmt emStd ⟨[tabOne]⟩ ⟨"t", none⟩
        = (⟨[{ tabOne with data := ([] : List Row) }]⟩, none)) :=
  ⟨by decide,
   deleteStmt_filter_semantics emStd tabOne (.binary (.ident "a") .equal (.intLit 2)) (by decide)⟩

theorem aggLoop_noMatch (em : ExternModel) (t : Table) (w : Expr) (sts : List AggState) :
    ∀ rows : List Row,
      rows.all (fun row => whereRes em t (some w) row = some false) = true →
      aggLoop em t (some w) sts false rows = .ok (sts, false) := by
  intro rows
  induction rows with
  | nil => intro _; rfl
  | cons r rest ih =>
      intro h
      rw [List.all_cons, Bool.and_eq_true] at h
      obtain ⟨h1, h2⟩ := h
      have hw : whereTest em t r (some w) = .ok false :=
        whereRes_some.mp (by simpa using h1)
      simp [aggLoop, hw, ih h2, ex_bind_ok]

/-- C2 amended.  SELECT COUNT(*) with a WHERE clause that evaluates to
boolean false for every row returns a result table with the placeholder
projected column and zero rows. -/
theorem aggregateSelect_noMatch_zeroRows (em : ExternModel) (t : Table) (w : Expr)
    (hf : t.data.all (fun row => whereRes em t (some w) row = some false) = true) :
    evalSelectStmt em ⟨[t]⟩ ⟨[.call "count" [.star]], .ident t.name, some w⟩
      = .ok ⟨"", [qCol], []⟩ := by
  have hstar : expandStar t [Expr.call "count" [Expr.star]]
      = [Expr.call "count" [Expr.star]] := rfl
  have hagg : containsAggList [Expr.call "count" [Expr.star]] = true := rfl
  have hvr : validateAndRewrite [Expr.call "count" [Expr.star]] []
      = .ok ([Expr.aggRef 0], [AggState.count Expr.star true 0]) := rfl
  simp only [evalSelectStmt, ex_pure, ex_bind_ok, lookupTable_single, hstar, hagg,
    if_true]
  simp only [evalAggregateSelectStmt, hvr, ex_bind_ok,
    aggLoop_noMatch em t w [AggState.count Expr.star true 0] t.data hf]
  rfl

/-- Witness for the amended COUNT(*) semantics on a concrete one-row table
with a WHERE clause false for its row. -/
theorem aggregateSelect_noMatch_zeroRows_witness :
    ((tabOne.data.all (fun row =>
        whereRes emStd tabOne (some (.boolLit false)) row = some false)) = true)
    ∧ evalSelectStmt emStd ⟨[tabOne]⟩ ⟨[.call "count" [.star]], .ident "t", some (.boolLit false)⟩
        = .ok ⟨"", [qCol], []⟩ :=
  ⟨by decide, aggregateSelect_noMatch_zeroRows emStd tabOne (.boolLit false) (by decide)⟩

/-- Recognizer for the star projection node. -/
def isStarB : Expr → Bool
  | .star => true
  | _ => false

theorem expandStar_no_star (t : Table) :
    ∀ proj : List Expr, proj.all (fun e => !isStarB e) = true → expandStar t proj = proj := by
  intro proj
  induction proj with
  | nil => intro _; rfl
  | cons e es ih =>
      intro h
      rw [List.all_cons, Bool.and_eq_true] at h
      obtain ⟨h1, h2⟩ := h
      cases e <;> simp_all [expandStar, isStarB]

theorem ex_bind_ok_comp {ε α β : Type} (e : Except ε α) (f : α → β) :
    (e >>= fun a => Except.ok (f a)) = Except.map f e := by
  cases e <;> rfl

/-- Sequential partial map over Option, used to state the row-wise
coercion of the round-trip claim. -/
def optionMapM {α β : Type} (f : α → Option β) : List α → Option (List β)
  | [] => some []
  | a :: rest => do
      let x ← f a
      let xs ← optionMapM f rest
      some (x :: xs)

/-- Sequential fault-propagating map, used to state row-wise projection
results: the first fault wins, otherwise the list of outcomes. -/
def exceptMapM {α β : Type} (f : α → Except EFault β) : List α → Except EFault (List β)
  | [] => .ok []
  | a :: rest => do
      let x ← f a
      let xs ← exceptMapM f rest
      .ok (x :: xs)

theorem selectRows_filter_mapM (em : ExternModel) (t : Table) (w : Expr) (proj : List Expr) :
    ∀ rows : List Row,
      rows.all (fun row => (whereRes em t (some w) row).isSome) = true →
      selectRows em t (some w) proj rows
        = exceptMapM (fun row => evalProjRow em [] (.curRow t row) proj)
            (rows.filter (fun row => decide (whereRes em t (some w) row = some true))) := by
  intro rows
  induction rows with
  | nil => intro _; rfl
  | cons r rest ih =>
      intro h
      rw [List.all_cons, Bool.and_eq_true] at h
      obtain ⟨h1, h2⟩ := h
      obtain ⟨b, hb⟩ := Option.isSome_iff_exists.mp h1
      have hw : whereTest em t r (some w) = .ok b := whereRes_some.mp hb
      cases b
      · simp [selectRows, hw, ih h2, ex_bind_ok, List.filter_cons, hb]
      · simp [selectRows, hw, ih h2, ex_bind_ok, ex_pure, List.filter_cons, hb,
          exceptMapM]

/-- C6 amended.  In a non-aggregate star-free SELECT whose WHERE clause
evaluates to a boolean for every row, the result keeps exactly the rows
where it evaluates to boolean true (projected, with projection faults
propagating in row order); but when the WHERE clause of the first row
evaluates to null, the whole statement faults with the nil-dereference
error instead of excluding the row. -/
theorem selectStmt_whereFiltering (em : ExternModel) (t : Table) (w : Expr) (proj : List Expr)
    (r : Row) (rest : List Row)
    (hns : proj.all (fun e => !isStarB e) = true)
    (hna : containsAggList proj = false) :
    (t.data.all (fun row => (whereRes em t (some w) row).isSome) = true →
      evalSelectStmt em ⟨[t]⟩ ⟨proj, .ident t.name, some w⟩
        = Except.map (fun rows => (⟨"", resultColumns proj, rows⟩ : Table))
            (exceptMapM (fun row => evalProjRow em [] (.curRow t row) proj)
              (t.data.filter (fun row => decide (whereRes em t (some w) row = some true)))))
    ∧ (t.data = r :: rest → evalExpr em [] (.curRow t r) w = .ok none →
        evalSelectStmt em ⟨[t]⟩ ⟨proj, .ident t.name, some w⟩ = .error nilDeref) := by
  have hexp := expandStar_no_star t proj hns
  constructor
  · intro hb
    simp only [evalSelectStmt, ex_pure, ex_bind_ok, lookupTable_single, hexp, hna,
      Bool.false_eq_true, if_false]
    rw [selectRows_filter_mapM em t w proj t.data hb]
    exact ex_bind_ok_comp _ _
  · intro hdata hnull
    simp only [evalSelectStmt, ex_pure, ex_bind_ok, lookupTable_single, hexp, hna,
      Bool.false_eq_true, if_false]
    rw [hdata]
    simp [selectRows, whereTest, hnull, valToBoolean, ex_bind_ok, ex_bind_err]

/-- Witness for the amended SELECT filtering: the filter form on a boolean
WHERE clause and the error on a null WHERE clause, both on the concrete
one-row table. -/
theorem selectStmt_whereFiltering_witness :
    (([(.ident "a")] : List Expr).all (fun e => !isStarB e) = true)
    ∧ containsAggList [(.ident "a")] = false
    ∧ (tabOne.data.all (fun row =>
        (whereRes emStd tabOne (some (.binary (.ident "a") .equal (.intLit 2))) row).isSome) = true)
    ∧ evalSelectStmt emStd ⟨[tabOne]⟩
        ⟨[.ident "a"], .ident "t", some (.binary (.ident "a") .equal (.intLit 2))⟩
        = Except.map (fun rows => (⟨"", resultColumns [.ident "a"], rows⟩ : Table))
            (exceptMapM (fun row => evalProjRow emStd [] (.curRow tabOne row) [.ident "a"])
              (tabOne.data.filter (fun row => decide
                (whereRes emStd tabOne (some (.binary (.ident "a") .equal (.intLit 2))) row
                  = some true))))
    ∧ tabOne.data = [some (Value.integer 1)] :: []
    ∧ evalExpr emStd [] (.curRow tabOne [some (Value.integer 1)]) .nullLit = .ok none
    ∧ evalSelectStmt emStd ⟨[tabOne]⟩ ⟨[.ident "a"], .ident "t", some .nullLit⟩
        = .error nilDeref :=
  ⟨by decide, by decide, by decide,
   (selectStmt_whereFiltering emStd tabOne (.binary (.ident "a") .equal (.intLit 2))
      [.ident "a"] [] [] (by decide) (by decide)).1 (by decide),
   by decide, by decide,
   (selectStmt_whereFiltering emStd tabOne .nullLit [.ident "a"]
      [some (Value.integer 1)] [] (by decide) (by decide)).2 (by decide) (by decide)⟩

/-- The amended sequential-update semantics, written from the corrected
claim wording: the right-hand side of the k-th assignment is evaluated
against the row to which the first k-1 assignments have already been
applied, left to right. -/
def updateRowSeqSpec (em : ExternModel) (t : Table) : List (String × Expr) → Row → Except EFault Row
  | [], row => .ok row
  | (c, e) :: rest, row =>
      match t.colIndex c with
      | none => .error (.errVal ("column of relation does not exist"))
      | some n =>
          match evalExpr em [] (.curRow t row) e with
          | .error f => .error f
          | .ok v => updateRowSeqSpec em t rest (row.set n v)

theorem applySetClauses_of_spec (em : ExternModel) (t : Table) :
    ∀ (cols : List String) (vals : List Expr) (row row' : Row),
      cols.length = vals.length →
      updateRowSeqSpec em t (cols.zip vals) row = .ok row' →
      applySetClauses em t cols vals row = (row', none) := by
  intro cols
  induction cols with
  | nil =>
      intro vals row row' hlen hs
      cases vals with
      | nil =>
          simp only [List.zip_nil_left, updateRowSeqSpec, Except.ok.injEq] at hs
          simp [applySetClauses, hs]
      | cons v vs => simp at hlen
  | cons c cs ih =>
      intro vals row row' hlen hs
      cases vals with
      | nil => simp at hlen
      | cons v vs =>
          simp only [List.zip_cons_cons, updateRowSeqSpec] at hs
          rcases hci : t.colIndex c with _ | n
          · rw [hci] at hs; simp at hs
          · rw [hci] at hs
            rcases he : evalExpr em [] (.curRow t row) v with f | val
            · rw [he] at hs; simp at hs
            · rw [he] at hs
              simp only [applySetClauses, hci, he]
              exact ih vs (row.set n val) row' (by simpa using hlen) hs

theorem updateRows_map (em : ExternModel) (t : Table) (cols : List String) (vals : List Expr)
    (wq : Option Expr) (g : Row → Row) :
    ∀ rows : List Row,
      rows.all (fun row => (whereRes em t wq row).isSome) = true →
      (∀ row ∈ rows, whereRes em t wq row = some true →
        updateRowSeqSpec em t (cols.zip vals) row = .ok (g row)) →
      cols.length = vals.length →
      updateRows em t cols vals wq rows
        = (rows.map (fun row => if whereRes em t wq row = some true then g row else row),
           none) := by
  intro rows
  induction rows with
  | nil => intro _ _ _; rfl
  | cons r rest ih =>
      intro hall hg hlen
      rw [List.all_cons, Bool.and_eq_true] at hall
      obtain ⟨h1, h2⟩ := hall
      obtain ⟨b, hb⟩ := Option.isSome_iff_exists.mp h1
      have hw : whereTest em t r wq = .ok b := whereRes_some.mp hb
      have ihr := ih h2 (fun row hm hw' => hg row (List.mem_cons_of_mem _ hm) hw') hlen
      cases b
      · simp [updateRows, hw, ihr, hb]
      · have happ := applySetClauses_of_spec em t cols vals r (g r) hlen
          (hg r (List.mem_cons_self _ _) hb)
        simp [updateRows, hw, happ, ihr, hb]

/-- C5 amended.  For every UPDATE whose WHERE clause yields a boolean for
every row and whose assignment chain succeeds on each matched row, the new
row sequence maps each matched row through the sequential semantics: each
right-hand side is evaluated against the row as left by the earlier
assignments of the same statement, not against the original row. -/
theorem updateStmt_sequentialAssignments (em : ExternModel) (t : Table) (cols : List String)
    (vals : List Expr) (wq : Option Expr) (g : Row → Row)
    (hw : t.data.all (fun row => (whereRes em t wq row).isSome) = true)
    (hg : ∀ row ∈ t.data, whereRes em t wq row = some true →
        updateRowSeqSpec em t (cols.zip vals) row = .ok (g row))
    (hlen : cols.length = vals.length) :
    evalUpdateStmt em ⟨[t]⟩ ⟨t.name, cols, vals, wq⟩
      = (⟨[{ t with data :=
                t.data.map (fun row =>
                  if whereRes em t wq row = some true then g row else row) }]⟩,
         none) := by
  simp [evalUpdateStmt, lookupTable_single,
    updateRows_map em t cols vals wq g t.data hw hg hlen, replaceTable_single]

/-- Witness for the sequential-update semantics at the concrete
self-referencing UPDATE t SET a = 2, b = a on the row (1, 10), whose
sequential result is (2, 2). -/
theorem updateStmt_sequentialAssignments_witness :
    (tabAB.data.all (fun row => (whereRes emStd tabAB none row).isSome) = true)
    ∧ (["a", "b"] : List String).length = ([.intLit 2, .ident "a"] : List Expr).length
    ∧ evalUpdateStmt emStd ⟨[tabAB]⟩ ⟨"t", ["a", "b"], [.intLit 2, .ident "a"], none⟩
        = (⟨[{ tabAB with data :=
                  tabAB.data.map (fun row =>
                    if whereRes emStd tabAB none row = some true then
                      [some (Value.integer 2), some (Value.integer 2)] else row) }]⟩,
           none) :=
  ⟨by decide, by decide,
   updateStmt_sequentialAssignments emStd tabAB ["a", "b"] [.intLit 2, .ident "a"] none
     (fun _ => [some (Value.integer 2), some (Value.integer 2)])
     (by decide) (by decide) (by decide)⟩

theorem findIdx_name_pre (nm : String) :
    ∀ (pre : List Column) (c : Column) (post : List Column) (i : Nat),
      c.name = nm → (∀ d ∈ pre, d.name ≠ nm) →
      List.findIdx? (fun d => d.name = nm) (pre ++ c :: post) i = some (i + pre.length) := by
  intro pre
  induction pre with
  | nil =>
      intro c post i hc hne
      simp [List.findIdx?_cons, hc]
  | cons d pre ih =>
      intro c post i hc hne
      have hd : d.name ≠ nm := hne d (List.mem_cons_self _ _)
      simp only [List.cons_append, List.findIdx?_cons]
      rw [if_neg (by simp [hd])]
      rw [ih c post (i + 1) hc (fun x hx => hne x (List.mem_cons_of_mem _ hx))]
      congr 1
      simp [List.length_cons]
      omega

theorem colIndex_pre (t : Table) (pre : List Column) (c : Column) (post : List Column)
    (hsplit : t.columns = pre ++ c :: post) (hne : ∀ d ∈ pre, d.name ≠ c.name) :
    t.colIndex c.name = some pre.length := by
  unfold Table.colIndex
  rw [hsplit, findIdx_name_pre c.name pre c post 0 rfl hne]
  simp

theorem no_dup_split :
    ∀ (pre : List Column) (c : Column) (post : List Column),
      columnsHaveDup (pre ++ c :: post) = false → ∀ d ∈ pre, d.name ≠ c.name := by
  intro pre
  induction pre with
  | nil => intro c post _ d hd; cases hd
  | cons e pre ih =>
      intro c post h d hd
      rw [List.cons_append] at h
      simp only [columnsHaveDup, Bool.or_eq_false_iff] at h
      obtain ⟨h1, h2⟩ := h
      rcases List.mem_cons.mp hd with heq | hd
      · subst heq
        intro heq
        have hc : (pre ++ c :: post).any (fun x => x.name = d.name) = true :=
          List.any_eq_true.mpr ⟨c, by simp [List.mem_append], by simp [heq]⟩
        rw [h1] at hc
        cases hc
      · exact ih c post h2 d hd

theorem evalProjRow_idents (em : ExternModel) (t : Table)
    (hnd : columnsHaveDup t.columns = false) (row : Row)
    (hlen : row.length = t.columns.length) :
    evalProjRow em [] (.curRow t row) (t.columns.map (fun c => Expr.ident c.name))
      = .ok row := by
  suffices h : ∀ (pre suf : List Column), t.columns = pre ++ suf →
      evalProjRow em [] (.curRow t row) (suf.map (fun c => Expr.ident c.name))
        = .ok (row.drop pre.length) by
    simpa using h [] t.columns rfl
  intro pre suf
  induction suf generalizing pre with
  | nil =>
      intro hsplit
      have hp : pre.length = row.length := by
        rw [hlen, hsplit]; simp
      simp [evalProjRow, hp, List.drop_length]
  | cons c suf ih =>
      intro hsplit
      have hne : ∀ d ∈ pre, d.name ≠ c.name :=
        no_dup_split pre c suf (by rw [← hsplit]; exact hnd)
      have hci : t.colIndex c.name = some pre.length := colIndex_pre t pre c suf hsplit hne
      have hlt : pre.length < row.length := by
        rw [hlen, hsplit]
        simp only [List.length_append, List.length_cons]
        omega
      have ihr := ih (pre ++ [c]) (by rw [hsplit]; simp)
      have hdrop := List.drop_eq_getElem_cons (l := row) hlt
      simp only [List.map_cons, evalProjRow, evalExpr, nsLookup, hci,
        List.get?_eq_getElem?, List.getElem?_eq_getElem hlt, ex_bind_ok, ihr,
        List.length_append, List.length_cons, List.length_nil]
      rw [hdrop]

/-- Spec-side per-column coercion of the round-trip claim: a null value
passes through unchanged (coercion applies to values, and the not-null
check is a hypothesis of a successful insert), any other value is coerced
to the column data type, and a failing coercion has no result. -/
def coerceValSpec (em : ExternModel) (c : Column) (v : Val) : Option Val :=
  match v with
  | none => some none
  | some w =>
      match coerce em w c.type with
      | .ok u => some (some u)
      | .error _ => none

/-- Spec-side row coercion: every value coerced to its column, positionally. -/
def coerceRowSpec (em : ExternModel) : List Column → List Val → Option (List Val)
  | [], [] => some []
  | c :: cs, v :: ws => do
      let u ← coerceValSpec em c v
      let rest ← coerceRowSpec em cs ws
      some (u :: rest)
  | _, _ => none

theorem coerceRowSpec_of_coerceRow (em : ExternModel) :
    ∀ (cols : List Column) (vs : List Val) (row' : Row),
      vs.length = cols.length →
      coerceRow em cols vs = .ok row' →
      coerceRowSpec em cols vs = some row' := by
  intro cols
  induction cols with
  | nil =>
      intro vs row' hlen h
      cases vs with
      | nil =>
          simp only [coerceRow, Except.ok.injEq] at h
          simp [coerceRowSpec, ← h]
      | cons v ws => simp at hlen
  | cons c cs ih =>
      intro vs row' hlen h
      cases vs with
      | nil => simp at hlen
      | cons v ws =>
          cases v with
          | none =>
              by_cases hn : c.nullable
              · simp only [coerceRow, coerceCell, hn, if_true, ex_pure, ex_bind_ok] at h
                rcases hr : coerceRow em cs ws with f | rest
                · rw [hr] at h; simp [ex_bind_err] at h
                · rw [hr] at h
                  simp only [ex_bind_ok, Except.ok.injEq] at h
                  simp [coerceRowSpec, coerceValSpec,
                    ih ws rest (by simpa using hlen) hr, ← h]
              · simp only [coerceRow, coerceCell] at h
                rw [if_neg hn] at h
                simp [ex_bind_err] at h
          | some wv =>
              simp only [coerceRow, coerceCell, ex_pure] at h
              rcases hcv : coerce em wv c.type with f | u
              · rw [hcv] at h; simp [ex_bind_err] at h
              · rw [hcv] at h
                simp only [ex_bind_ok] at h
                rcases hr : coerceRow em cs ws with f | rest
                · rw [hr] at h; simp [ex_bind_err] at h
                · rw [hr] at h
                  simp only [ex_bind_ok, Except.ok.injEq] at h
                  simp [coerceRowSpec, coerceValSpec, hcv,
                    ih ws rest (by simpa using hlen) hr, ← h]

theorem coerceRowSpec_length (em : ExternModel) :
    ∀ (cols : List Column) (vs : List Val) (row' : Row),
      coerceRowSpec em cols vs = some row' → row'.length = cols.length := by
  intro cols
  induction cols with
  | nil =>
      intro vs row' h
      cases vs with
      | nil => simp only [coerceRowSpec, Option.some.injEq] at h; simp [← h]
      | cons v ws => simp [coerceRowSpec] at h
  | cons c cs ih =>
      intro vs row' h
      cases vs with
      | nil => simp [coerceRowSpec] at h
      | cons v ws =>
          simp only [coerceRowSpec, Option.bind_eq_bind, Option.bind_eq_some] at h
          obtain ⟨u, _, rest, hrest, hcons⟩ := h
          have hr := Option.some.inj hcons
          simp [← hr, ih ws rest hrest]

theorem insert_nil_ok (em : ExternModel) (tab : Table) (values : List Val) (t' : Table)
    (h : tab.insert em [] values = (t', none)) :
    ∃ row', values.length = tab.columns.length
      ∧ coerceRow em tab.columns values = .ok row'
      ∧ t' = { tab with data := tab.data ++ [row'] } := by
  simp only [Table.insert] at h
  split at h
  case isTrue hzero =>
    split at h
    case isTrue hlen => exact absurd (congrArg Prod.snd h) (by simp)
    case isFalse hlen =>
      rcases hcr : coerceRow em tab.columns values with f | row'
      · rw [hcr] at h
        exact absurd (congrArg Prod.snd h) (by simp)
      · rw [hcr] at h
        refine ⟨row', ?_, rfl, (congrArg Prod.fst h).symm⟩
        simp at hlen
        omega
  case isFalse hzero => exact absurd hzero (by simp)

/-- Iterated insert with no explicit column list, the population pattern
of the round-trip claim; the first fault stops the sequence. -/
def insertAll (em : ExternModel) (t : Table) : List (List Val) → Table × Option EFault
  | [] => (t, none)
  | vs :: rest =>
      match t.insert em [] vs with
      | (t', none) => insertAll em t' rest
      | (t', some f) => (t', some f)

theorem insertAll_ok (em : ExternModel) :
    ∀ (vss : List (List Val)) (t tN : Table),
      insertAll em t vss = (tN, none) →
      tN.name = t.name ∧ tN.columns = t.columns
      ∧ ∃ rows, optionMapM (coerceRowSpec em t.columns) vss = some rows
          ∧ tN.data = t.data ++ rows
          ∧ ∀ r ∈ rows, r.length = t.columns.length := by
  intro vss
  induction vss with
  | nil =>
      intro t tN h
      simp only [insertAll, Prod.mk.injEq] at h
      refine ⟨by rw [← h.1], by rw [← h.1], [], rfl, by simp [← h.1], by simp⟩
  | cons vs rest ih =>
      intro t tN h
      simp only [insertAll] at h
      rcases hins : t.insert em [] vs with ⟨t', f⟩
      rw [hins] at h
      cases f with
      | none =>
          obtain ⟨row', hlen, hcr, ht'⟩ := insert_nil_ok em t vs t' hins
          obtain ⟨hname, hcols, rows, hrows, hdata, hlens⟩ := ih t' tN h
          subst ht'
          have hname2 : tN.name = t.name := hname
          have hcols2 : tN.columns = t.columns := hcols
          have hrows2 : optionMapM (coerceRowSpec em t.columns) rest = some rows := hrows
          have hdata2 : tN.data = (t.data ++ [row']) ++ rows := hdata
          have hlens2 : ∀ r ∈ rows, r.length = t.columns.length := hlens
          refine ⟨hname2, hcols2, row' :: rows, ?_, ?_, ?_⟩
          · simp only [optionMapM,
              coerceRowSpec_of_coerceRow em t.columns vs row' hlen hcr,
              Option.some_bind, hrows2]
            rfl
          · rw [hdata2]
            simp
          · intro r hr
            rcases List.mem_cons.mp hr with heq | hmem
            · subst heq
              exact coerceRowSpec_length em _ vs r
                (coerceRowSpec_of_coerceRow em _ vs r hlen hcr)
            · exact hlens2 r hmem
      | some f' => simp at h

/-- Witness for the atomicity theorem at a concrete failing insert (a null
value for a not-null column) showing the data untouched. -/
theorem insert_atomicity_witness :
    ((Table.insert emStd ⟨"t", [⟨"a", .integer, none, false, false, 0⟩], []⟩ [] [none]).2.isSome)
    ∧ ((Table.insert emStd ⟨"t", [⟨"a", .integer, none, false, false, 0⟩], []⟩ [] [none]).1).data
        = (⟨"t", [⟨"a", .integer, none, false, false, 0⟩], []⟩ : Table).data :=
  ⟨by decide,
   (insert_atomicity emStd ⟨"t", [⟨"a", .integer, none, false, false, 0⟩], []⟩ [] [none]).1
     (by decide)⟩

theorem createTable_shape (s : CreateTableStmt) (e1 : Environment)
    (h : evalCreateTableStmt ⟨[]⟩ s = (e1, none)) :
    ∃ cols, buildColumns s.columns = .ok cols
      ∧ columnsHaveDup cols = false
      ∧ e1 = ⟨[⟨s.table, cols, []⟩]⟩ := by
  simp only [evalCreateTableStmt] at h
  split at h
  case h_1 f heq => exact absurd (congrArg Prod.snd h) (by simp)
  case h_2 cols heq =>
    simp only [Environment.CreateTable, List.any_nil, Bool.false_eq_true, if_false] at h
    by_cases hd : columnsHaveDup cols = true
    · rw [if_pos hd] at h
      exact absurd (congrArg Prod.snd h) (by simp)
    · rw [if_neg hd] at h
      refine ⟨cols, heq, by simpa using hd, ?_⟩
      have := congrArg Prod.fst h
      simpa using this.symm

theorem containsAggList_idents :
    ∀ (cols : List Column),
      containsAggList (cols.map (fun c => Expr.ident c.name)) = false := by
  intro cols
  induction cols with
  | nil => rfl
  | cons c cs ih =>
      simp only [List.map_cons, containsAggList, ih, Bool.or_false]
      rfl

theorem selectRows_idents_noWhere (em : ExternModel) (t : Table)
    (hnd : columnsHaveDup t.columns = false) :
    ∀ rows : List Row, (∀ r ∈ rows, r.length = t.columns.length) →
      selectRows em t none (t.columns.map (fun c => Expr.ident c.name)) rows
        = .ok rows := by
  intro rows
  induction rows with
  | nil => intro _; rfl
  | cons r rest ih =>
      intro hlen
      have hr : r.length = t.columns.length := hlen r (List.mem_cons_self _ _)
      have hrest := ih (fun x hx => hlen x (List.mem_cons_of_mem _ hx))
      simp only [selectRows, whereTest, ex_bind_ok, if_true,
        evalProjRow_idents em t hnd r hr, hrest]

theorem select_star_ok (em : ExternModel) (t : Table) (nm : String)
    (hnm : t.name = nm) (hnd : columnsHaveDup t.columns = false)
    (hlens : ∀ r ∈ t.data, r.length = t.columns.length) :
    evalSelectStmt em ⟨[t]⟩ ⟨[.star], .ident nm, none⟩
      = .ok ⟨"", resultColumns (t.columns.map (fun c => Expr.ident c.name)), t.data⟩ := by
  have hfind : Environment.lookupTable ⟨[t]⟩ nm = .ok t := by
    simp [Environment.lookupTable, List.find?, hnm]
  have hexp : expandStar t [Expr.star]
      = t.columns.map (fun c => Expr.ident c.name) := by
    simp [expandStar]
  simp only [evalSelectStmt, ex_pure, ex_bind_ok, hfind, hexp,
    containsAggList_idents, Bool.false_eq_true, if_false,
    selectRows_idents_noWhere em t hnd t.data hlens]

/-- C7: for a table created by CREATE TABLE and populated only by INSERT
statements supplying all columns in table order (insertAll), SELECT * FROM
the table returns exactly the inserted rows after per-column coercion of
each value to its column declared type, in insertion order, with the
result columns named by the schema in schema order. -/
theorem insert_select_roundTrip (em : ExternModel) (cstmt : CreateTableStmt)
    (t0 tN : Table) (vss : List (List Val))
    (hc : evalCreateTableStmt ⟨[]⟩ cstmt = (⟨[t0]⟩, none))
    (hi : insertAll em t0 vss = (tN, none)) :
    optionMapM (coerceRowSpec em t0.columns) vss = some tN.data
    ∧ evalSelectStmt em ⟨[tN]⟩ ⟨[.star], .ident cstmt.table, none⟩
        = .ok ⟨"", resultColumns (t0.columns.map (fun c => Expr.ident c.name)), tN.data⟩
    ∧ (resultColumns (t0.columns.map (fun c => Expr.ident c.name))).map
        (fun c => c.name) = t0.columns.map (fun c => c.name) := by
  obtain ⟨cols, hbc, hnd, he⟩ := createTable_shape cstmt ⟨[t0]⟩ hc
  have ht0 : t0 = ⟨cstmt.table, cols, []⟩ := by
    simpa using congrArg Environment.tables he
  obtain ⟨hname, hcols, rows, hrows, hdata, hlens⟩ := insertAll_ok em vss t0 tN hi
  subst ht0
  have hnmN : tN.name = cstmt.table := hname
  have hcols2 : tN.columns = cols := hcols
  have hdata2 : tN.data = rows := by simpa using hdata
  have hndN : columnsHaveDup tN.columns = false := by
    rw [hcols2]
    exact hnd
  have hlensN : ∀ r ∈ tN.data, r.length = tN.columns.length := by
    rw [hdata2, hcols2]
    exact hlens
  have hsel := select_star_ok em tN cstmt.table hnmN hndN hlensN
  rw [hcols2] at hsel
  refine ⟨?_, ?_, ?_⟩
  · rw [hdata2]
    exact hrows
  · exact hsel
  · simp only [resultColumns, List.map_map]
    rfl

/-- Witness for the round-trip theorem: CREATE TABLE t (a integer, b
varchar) followed by one INSERT of (1, (quoted) x), then SELECT * FROM t. -/
theorem insert_select_roundTrip_witness :
    evalCreateTableStmt ⟨[]⟩
        ⟨"t", [⟨"a", Kind.integer, false⟩, ⟨"b", Kind.varchar, false⟩]⟩
      = (⟨[⟨"t", [⟨"a", DataType.integer, none, false, false, 0⟩,
                  ⟨"b", DataType.stringType, none, false, false, 0⟩], []⟩]⟩, none)
    ∧ insertAll emStd
        ⟨"t", [⟨"a", DataType.integer, none, false, false, 0⟩,
               ⟨"b", DataType.stringType, none, false, false, 0⟩], []⟩
        [[some (Value.integer 1), some (Value.stringV "x")]]
      = (⟨"t", [⟨"a", DataType.integer, none, false, false, 0⟩,
                ⟨"b", DataType.stringType, none, false, false, 0⟩],
          [[some (Value.integer 1), some (Value.stringV "x")]]⟩, none)
    ∧ (optionMapM
          (coerceRowSpec emStd
            (Table.columns ⟨"t", [⟨"a", DataType.integer, none, false, false, 0⟩,
               ⟨"b", DataType.stringType, none, false, false, 0⟩], []⟩))
          [[some (Value.integer 1), some (Value.stringV "x")]]
        = some (Table.data ⟨"t", [⟨"a", DataType.integer, none, false, false, 0⟩,
                ⟨"b", DataType.stringType, none, false, false, 0⟩],
            [[some (Value.integer 1), some (Value.stringV "x")]]⟩)
       ∧ evalSelectStmt emStd
            ⟨[⟨"t", [⟨"a", DataType.integer, none, false, false, 0⟩,
                     ⟨"b", DataType.stringType, none, false, false, 0⟩],
               [[some (Value.integer 1), some (Value.stringV "x")]]⟩]⟩
            ⟨[.star], .ident "t", none⟩
          = .ok ⟨"", resultColumns ((Table.columns ⟨"t",
                  [⟨"a", DataType.integer, none, false, false, 0⟩,
                   ⟨"b", DataType.stringType, none, false, false, 0⟩], []⟩).map
                    (fun c => Expr.ident c.name)),
              Table.data ⟨"t", [⟨"a", DataType.integer, none, false, false, 0⟩,
                  ⟨"b", DataType.stringType, none, false, false, 0⟩],
                [[some (Value.integer 1), some (Value.stringV "x")]]⟩⟩
       ∧ (resultColumns ((Table.columns ⟨"t",
              [⟨"a", DataType.integer, none, false, false, 0⟩,
               ⟨"b", DataType.stringType, none, false, false, 0⟩], []⟩).map
                (fun c => Expr.ident c.name))).map (fun c => c.name)
          = (Table.columns ⟨"t", [⟨"a", DataType.integer, none, false, false, 0⟩,
               ⟨"b", DataType.stringType, none, false, false, 0⟩], []⟩).map
              (fun c => c.name)) :=
  ⟨by decide, by decide,
   insert_select_roundTrip emStd
     ⟨"t", [⟨"a", Kind.integer, false⟩, ⟨"b", Kind.varchar, false⟩]⟩
     ⟨"t", [⟨"a", DataType.integer, none, false, false, 0⟩,
            ⟨"b", DataType.stringType, none, false, false, 0⟩], []⟩
     ⟨"t", [⟨"a", DataType.integer, none, false, false, 0⟩,
            ⟨"b", DataType.stringType, none, false, false, 0⟩],
       [[some (Value.integer 1), some (Value.stringV "x")]]⟩
     [[some (Value.integer 1), some (Value.stringV "x")]]
     (by decide) (by decide)⟩

theorem consumeQuotedStringLoop_append :
    ∀ (s : List Char), squote ∉ s → ∀ (acc tl : List Char),
      consumeQuotedStringLoop acc (s ++ tl)
        = consumeQuotedStringLoop (s.reverse ++ acc) tl := by
  intro s
  induction s with
  | nil => intro _ acc tl; simp
  | cons c cs ih =>
      intro hs acc tl
      have hcq : ¬ c = squote := fun h => hs (by simp [h])
      have hcs : squote ∉ cs := fun h => hs (List.mem_cons_of_mem _ h)
      rw [List.cons_append, consumeQuotedStringLoop.eq_def]
      by_cases hc : c = crChar
      · subst hc
        simp only [show (crChar = squote) = False from by simp +decide,
          show (crChar = lfChar) = False from by simp +decide,
          if_false, if_pos rfl]
        rw [ih hcs (crChar :: acc) tl]
        simp
      · simp only [hcq, hc, if_false]
        rw [ih hcs (c :: acc) tl]
        simp

/-- C8: a single-quoted literal containing an embedded CRLF is accepted by
the lexer, but the carriage return and line feed are kept verbatim in the
token literal text: the CRLF-merging branch of consumeQuotedString never
fires, so no normalization to LF happens. -/
theorem quotedString_crlf_verbatim (a b rest : List Char)
    (ha : squote ∉ a) (hb : squote ∉ b) (hrest : rest.head? ≠ some squote) :
    consumeQuotedString (squote :: ((a ++ crChar :: lfChar :: b) ++ squote :: rest))
      = some (⟨a ++ crChar :: lfChar :: b⟩, rest) := by
  have hmid : squote ∉ a ++ crChar :: lfChar :: b := by
    intro h
    rcases List.mem_append.mp h with h1 | h1
    · exact ha h1
    · rcases List.mem_cons.mp h1 with h2 | h2
      · exact absurd h2 (by decide)
      · rcases List.mem_cons.mp h2 with h3 | h3
        · exact absurd h3 (by decide)
        · exact hb h3
  simp only [consumeQuotedString, if_pos rfl]
  rw [consumeQuotedStringLoop_append (a ++ crChar :: lfChar :: b) hmid []
    (squote :: rest)]
  cases rest with
  | nil =>
      rw [consumeQuotedStringLoop.eq_def]
      simp
  | cons r rest2 =>
      have hr : ¬ r = squote := fun h => hrest (by simp [h])
      rw [consumeQuotedStringLoop.eq_def]
      simp [hr]

/-- Witness for the CRLF theorem at the literal (quote) x CR LF y (quote). -/
theorem quotedString_crlf_verbatim_witness :
    squote ∉ (['x'] : List Char)
    ∧ squote ∉ (['y'] : List Char)
    ∧ ([] : List Char).head? ≠ some squote
    ∧ consumeQuotedString
        (squote :: ((['x'] ++ crChar :: lfChar :: ['y']) ++ squote :: ([] : List Char)))
      = some (⟨['x'] ++ crChar :: lfChar :: ['y']⟩, ([] : List Char)) :=
  ⟨by decide, by decide, by decide,
   quotedString_crlf_verbatim ['x'] ['y'] [] (by decide) (by decide) (by decide)⟩

end SqlEval
